import Mathlib

/-!
# MinA: the serial Nelder-Mead simplex engine (`src/MinA/algorithm/Simplex.cpp`)

A shallow embedding of `Simplex.cpp`.

Modelling conventions
* `double` is modelled by `ℚ` (exact arithmetic, totally ordered, no NaN).
* `std::vector<T>` is modelled by `List T`; the read `v[i]` is `v.getD i d` and the
  write `v[i] = x` is `v.set i x`.  An out-of-range index is undefined behaviour in
  the source; the statements below are about in-range indices.
* `for (int i = lo; i < hi; ++i) body` is `forLoop lo hi body`.
* `mDimension` is a natural number; the iteration counter and the budget are
  integers (the counter is incremented only while below the budget, so it never
  overflows).
* The classes `FunctionToBeOptimized`, `Parameter` and `Result` and the two
  string-keyed maps of the base class are declared outside `Simplex.cpp`; the
  members that `Simplex.cpp` uses are fields of the structures below.
* `std::sort` is modelled by an insertion sort with the comparator of the source.
* The `while` loop of `Simplex::algorithm` takes a fuel argument and
  returns `none` when the fuel runs out.
* Output to `cout` and to the `nmSimplex_*` files is not modelled.
-/

namespace MinA

/-- The `vertex` typedef of the source: a `std::pair` of the parameter vector
(`first`) and the cost (`second`). -/
structure vertex where
  first : List ℚ
  second : ℚ
deriving DecidableEq

/-- A default-constructed `vertex`: the empty vector and the cost `0.0`. -/
instance : Inhabited vertex := ⟨⟨[], 0⟩⟩

/-- The `verticesVector` typedef of the source. -/
abbrev verticesVector := List vertex

/-- The parameter descriptor as `Simplex.cpp` uses it: the four getters
`getName`, `getStartingValue`, `getLeftBoundary`, `getRightBoundary`. -/
structure Parameter where
  getName : String
  getStartingValue : ℚ
  getLeftBoundary : ℚ
  getRightBoundary : ℚ
deriving DecidableEq

instance : Inhabited Parameter := ⟨⟨"", 0, 0, 0⟩⟩

/-- The cost function boundary as `Simplex.cpp` uses it.  The class itself is
declared outside `Simplex.cpp`; its members are taken as parameters:
the parameter table `mParameters`, the dimension `getParSpaceDim()`, and the two
evaluation entry points `evaluate` and `getEvaluation`. -/
structure FunctionToBeOptimized where
  mParameters : List Parameter
  getParSpaceDim : Nat
  evaluate : List ℚ → ℚ
  getEvaluation : List ℚ → ℚ

instance : Inhabited FunctionToBeOptimized := ⟨⟨[], 0, fun _ => 0, fun _ => 0⟩⟩

/-- The `Result` value: `optimizationParameter` is a `std::map<string,double>`
(a finite map, modelled as a function into `Option`), `result` is the cost. -/
structure Result where
  optimizationParameter : String → Option ℚ
  result : ℚ

instance : Inhabited Result := ⟨⟨fun _ => none, 0⟩⟩

/-- The engine state: the fields of class `Simplex` that `Simplex.cpp` reads and
writes.  `metaParameter` and `additionalInformation` are the two string-keyed
maps of the base class (a missing key of `additionalInformation` reads as the
empty string, as `std::map::operator[]` does). -/
structure Simplex where
  stoppingIteration : Int
  currentIteration : Int
  metaParameter : String → ℚ
  additionalInformation : String → String
  stepSize : List ℚ
  Acopy : verticesVector
  mDimension : Nat
  mFunction : FunctionToBeOptimized

/-- The loop `for (int i = lo; i < hi; ++i) body` as a fold over the indices. -/
def forLoop {σ : Type} (lo hi : Nat) (body : Nat → σ → σ) (init : σ) : σ :=
  (List.range' lo (hi - lo)).foldl (fun st i => body i st) init

/-- The call `v.resize(n)` of `std::vector`: truncate or pad with value-initialised
elements (`fill`). -/
def resize {α : Type} (v : List α) (n : Nat) (fill : α) : List α :=
  v.take n ++ List.replicate (n - v.length) fill

namespace Simplex

/-- The read `mFunction->mParameters[iPar]`. -/
def parameter (s : Simplex) (iPar : Nat) : Parameter := s.mFunction.mParameters.getD iPar default

/-- The call `setMetaParameter(name, value)` of the base class. -/
def setMetaParameter (s : Simplex) (name : String) (value : ℚ) : Simplex :=
  { s with metaParameter := fun k => if k = name then value else s.metaParameter k }

/-- The call `getMetaParameter(name)` of the base class. -/
def getMetaParameter (s : Simplex) (name : String) : ℚ := s.metaParameter name

/-- The call `setAdditionalInformation(name, value)` of the base class. -/
def setAdditionalInformation (s : Simplex) (name : String) (value : String) : Simplex :=
  { s with additionalInformation := fun k => if k = name then value else s.additionalInformation k }

/-- The call `getAdditionalInformation()` of the base class. -/
def getAdditionalInformation (s : Simplex) : String → String := s.additionalInformation

/-- The constructor `Simplex::Simplex(int stop)`. -/
def ctor (stop : Int) : Simplex :=
  let s : Simplex :=
    { stoppingIteration := stop, currentIteration := 0, metaParameter := fun _ => 0,
      additionalInformation := fun _ => "", stepSize := [], Acopy := [], mDimension := 0,
      mFunction := default }
  let s := s.setMetaParameter "alpha" 1
  let s := s.setMetaParameter "beta" (1 / 2)
  let s := s.setMetaParameter "gamma" 1
  let s := s.setMetaParameter "tau" (1 / 2)
  let s := s.setAdditionalInformation "checkboundary" ""
  { s with currentIteration := 0 }

/-- The no-argument `Simplex::setStepSize()`. -/
def setStepSize (s : Simplex) : Simplex :=
  if s.stepSize.isEmpty then
    let stepSize := resize s.stepSize s.mDimension 0
    let stepSize := forLoop 0 s.mDimension (fun iPar stepSize =>
      stepSize.set iPar
        (min ((s.parameter iPar).getStartingValue -
                (s.parameter iPar).getLeftBoundary)
             ((s.parameter iPar).getRightBoundary -
                (s.parameter iPar).getStartingValue) / 2)) stepSize
    { s with stepSize := stepSize }
  else s

/-- The one-argument `Simplex::setStepSize(vector<double> s)`. -/
def setStepSizeTo (s : Simplex) (v : List ℚ) : Simplex := { s with stepSize := v }

/-- The method `Simplex::setStoppingIteration`. -/
def setStoppingIteration (s : Simplex) (n : Int) : Simplex := { s with stoppingIteration := n }

/-- The method `Simplex::checkStoppingCondition`: the returned flag and the
state after the call. -/
def checkStoppingCondition (s : Simplex) : Bool × Simplex :=
  if s.currentIteration ≥ s.stoppingIteration then (false, s)
  else if s.getAdditionalInformation "checkboundary" ≠ "" then (false, s)
  else (true, { s with currentIteration := s.currentIteration + 1 })

/-- The body of the loop of `Simplex::checkBoundaryCondition` for one
coordinate: two successive `if`s, the second reading the value the first may
have written. -/
def clampCoordinate (left right x : ℚ) : ℚ :=
  let x := if x < left then left else x
  if x > right then right else x

/-- The method `Simplex::checkBoundaryCondition(vertex& A)`. -/
def checkBoundaryCondition (s : Simplex) (A : vertex) : vertex :=
  { A with first := forLoop 0 s.mDimension (fun iPar first =>
      first.set iPar
        (clampCoordinate (s.parameter iPar).getLeftBoundary
          (s.parameter iPar).getRightBoundary
          (first.getD iPar 0))) A.first }

/-- The method `Simplex::pushResult(Result& rs, vertex& A)`. -/
def pushResult (s : Simplex) (rs : Result) (A : vertex) : Result :=
  let rs := forLoop 0 s.mDimension (fun iPar (rs : Result) =>
    { rs with optimizationParameter := fun k =>
        if k = (s.parameter iPar).getName then some (A.first.getD iPar 0)
        else rs.optimizationParameter k }) rs
  { rs with result := A.second }

/-- The assignment `A[i].first[k] = x`. -/
def setFirst (A : verticesVector) (i k : Nat) (x : ℚ) : verticesVector :=
  A.set i { A.getD i default with first := (A.getD i default).first.set k x }

/-- The call `A[i].first.resize(n)`. -/
def resizeFirst (A : verticesVector) (i n : Nat) : verticesVector :=
  A.set i { A.getD i default with first := resize (A.getD i default).first n 0 }

/-- The method `Simplex::initializeVertices(verticesVector& A)`. -/
def initializeVertices (s : Simplex) (A : verticesVector) : verticesVector :=
  let A := resizeFirst A 0 s.mDimension
  let A := forLoop 0 s.mDimension (fun iPar A =>
    setFirst A 0 iPar (s.parameter iPar).getStartingValue) A
  forLoop 1 (s.mDimension + 1) (fun iVertex A =>
    let A := resizeFirst A iVertex s.mDimension
    forLoop 0 s.mDimension (fun iPar A =>
      if iPar = iVertex - 1 then
        setFirst A iVertex iPar
          ((A.getD 0 default).first.getD iPar 0 + s.stepSize.getD (iVertex - 1) 0)
      else
        setFirst A iVertex iPar ((A.getD 0 default).first.getD iPar 0)) A) A

/-- The method `Simplex::getCentroid(verticesVector& A, int nExcluded)`. -/
def getCentroid (s : Simplex) (A : verticesVector) (nExcluded : Nat) : vertex :=
  let M : vertex := default
  let M := { M with first := resize M.first s.mDimension 0 }
  let M := forLoop 0 s.mDimension (fun iPar (M : vertex) =>
    let M := forLoop 0 (s.mDimension + 1 - nExcluded) (fun iVertex (M : vertex) =>
      { M with first := (M.first.set iPar
          (M.first.getD iPar 0 + (A.getD iVertex default).first.getD iPar 0)) }) M
    { M with first := (M.first.set iPar
        (M.first.getD iPar 0 / ((s.mDimension + 1 - nExcluded : Nat) : ℚ))) }) M
  { M with second := s.mFunction.evaluate M.first }

/-- The method `Simplex::getReflectedPoint(vertex& M, vertex& Aj)`. -/
def getReflectedPoint (s : Simplex) (M Aj : vertex) : vertex :=
  let Ar : vertex := default
  let Ar := { Ar with first := resize Ar.first s.mDimension 0 }
  let Ar := forLoop 0 s.mDimension (fun iPar (Ar : vertex) =>
    { Ar with first := (Ar.first.set iPar
        (M.first.getD iPar 0 +
          s.getMetaParameter "alpha" * (M.first.getD iPar 0 - Aj.first.getD iPar 0))) }) Ar
  { Ar with second := s.mFunction.evaluate Ar.first }

/-- The method `Simplex::getExtendedPoint(vertex& M, vertex& Ar)`. -/
def getExtendedPoint (s : Simplex) (M Ar : vertex) : vertex :=
  let Ae : vertex := default
  let Ae := { Ae with first := resize Ae.first s.mDimension 0 }
  let Ae := forLoop 0 s.mDimension (fun iPar (Ae : vertex) =>
    { Ae with first := (Ae.first.set iPar
        (Ar.first.getD iPar 0 +
          s.getMetaParameter "gamma" * (Ar.first.getD iPar 0 - M.first.getD iPar 0))) }) Ae
  { Ae with second := s.mFunction.evaluate Ae.first }

/-- The method `Simplex::getContractedPoint(vertex& M, vertex& Ajp)`. -/
def getContractedPoint (s : Simplex) (M Ajp : vertex) : vertex :=
  let Ac : vertex := default
  let Ac := { Ac with first := resize Ac.first s.mDimension 0 }
  let Ac := forLoop 0 s.mDimension (fun iPar (Ac : vertex) =>
    { Ac with first := (Ac.first.set iPar
        (M.first.getD iPar 0 +
          s.getMetaParameter "beta" * (Ajp.first.getD iPar 0 - M.first.getD iPar 0))) }) Ac
  { Ac with second := s.mFunction.evaluate Ac.first }

/-- The method `Simplex::getShrinkedPoint(vertex& Ap, vertex& A0)`. -/
def getShrinkedPoint (s : Simplex) (Ap A0 : vertex) : vertex :=
  let Anew : vertex := default
  let Anew := { Anew with first := resize Anew.first s.mDimension 0 }
  let Anew := forLoop 0 s.mDimension (fun iPar (Anew : vertex) =>
    { Anew with first := (Anew.first.set iPar
        (s.getMetaParameter "tau" * A0.first.getD iPar 0 +
          (1 - s.getMetaParameter "tau") * Ap.first.getD iPar 0)) }) Anew
  { Anew with second := s.mFunction.evaluate Anew.first }

/-- The comparator of the `sort` call in `Simplex::algorithm`:
`[](vertex& a, vertex& b) -> bool { return a.second < b.second; }`. -/
def sortLess (a b : vertex) : Bool := decide (a.second < b.second)

/-- Insertion of one vertex into a list ordered by `sortLess`, after every
element that is not greater. -/
def sortInsert (a : vertex) : verticesVector → verticesVector
  | [] => [a]
  | b :: l => if sortLess a b then a :: b :: l else b :: sortInsert a l

/-- The call `sort(A.begin(), A.end(), sortLess)`.  `std::sort` leaves the
relative order of equal-cost vertices unspecified; this model keeps their input
order. -/
def sort (A : verticesVector) : verticesVector :=
  A.foldl (fun sorted a => sortInsert a sorted) []

/-- The local variables of one pass through the body of the `while` loop of
`Simplex::algorithm`, as they stand when `A[mDimension] = Anew` is reached. -/
structure CycleLocals where
  M : vertex
  Ar : vertex
  Ac : vertex
  Ae : vertex
  Anew : vertex
  Ap : vertex
  check : Nat

/-- The evaluation loop and the `sort` call that open the body of the `while`
loop (the Evaluate and Order steps). -/
def evaluateAndSort (costFunction : FunctionToBeOptimized) (s : Simplex)
    (A : verticesVector) : verticesVector :=
  let A := forLoop 0 (s.mDimension + 1) (fun iVertex (A : verticesVector) =>
    A.set iVertex { A.getD iVertex default with
      second := costFunction.getEvaluation (A.getD iVertex default).first }) A
  sort A

/-- The decision tree of the body of the `while` loop, from `getCentroid` down to
the shrink loop, on the sorted vertex set `A`. -/
def decisionTree (s : Simplex) (A : verticesVector) : CycleLocals :=
  let Ac : vertex := default
  let Ae : vertex := default
  let Anew : vertex := default
  let Ap : vertex := default
  let M := getCentroid s A 1
  let check := 0
  let Ar := getReflectedPoint s M (A.getD s.mDimension default)
  let r : CycleLocals :=
    if Ar.second < (A.getD 0 default).second then
      let Ae := getExtendedPoint s M Ar
      if Ae.second < (A.getD 0 default).second then
        { M := M, Ar := Ar, Ac := Ac, Ae := Ae, Anew := Ae, Ap := Ap, check := 1 }
      else
        { M := M, Ar := Ar, Ac := Ac, Ae := Ae, Anew := Ar, Ap := Ap, check := 2 }
    else if Ar.second < (A.getD (s.mDimension - 1) default).second then
      { M := M, Ar := Ar, Ac := Ac, Ae := Ae, Anew := Ar, Ap := Ap, check := 3 }
    else
      let Ap := if Ar.second < (A.getD s.mDimension default).second then Ar
                else A.getD s.mDimension default
      let Ac := getContractedPoint s M Ap
      if Ac.second < (A.getD s.mDimension default).second then
        { M := M, Ar := Ar, Ac := Ac, Ae := Ae, Anew := Ac, Ap := Ap, check := 4 }
      else
        { M := M, Ar := Ar, Ac := Ac, Ae := Ae, Anew := Anew, Ap := Ap, check := check }
  if r.check = 0 then
    { r with Anew := (forLoop 1 (s.mDimension + 1)
        (fun _ _ => getShrinkedPoint s r.Ap (A.getD 0 default)) r.Anew) }
  else r

/-- The tail of the body of the `while` loop: `A[mDimension] = Anew`,
`checkBoundaryCondition(A[mDimension])`, `Acopy = A`. -/
def replaceWorst (s : Simplex) (A : verticesVector) (Anew : vertex) :
    Simplex × verticesVector :=
  let A := A.set s.mDimension Anew
  let A := A.set s.mDimension (checkBoundaryCondition s (A.getD s.mDimension default))
  ({ s with Acopy := A }, A)

/-- One pass through the body of the `while` loop of `Simplex::algorithm`. -/
def cycle (costFunction : FunctionToBeOptimized) (s : Simplex) (A : verticesVector) :
    Simplex × verticesVector :=
  let A := evaluateAndSort costFunction s A
  let r := decisionTree s A
  replaceWorst s A r.Anew

/-- The loop `while (checkStoppingCondition()) { ... }` of `Simplex::algorithm`;
`none` when `fuel` passes through the loop head do not reach a failing check. -/
def whileLoop (costFunction : FunctionToBeOptimized) :
    Nat → Simplex → verticesVector → Option (Simplex × verticesVector)
  | 0, _, _ => none
  | fuel + 1, s, A =>
    match checkStoppingCondition s with
    | (false, s) => some (s, A)
    | (true, s) =>
      let (s, A) := cycle costFunction s A
      whileLoop costFunction fuel s A

/-- The part of `Simplex::algorithm` before the `while` loop: the engine state
and the working vertex set `A` on entry to the loop. -/
def setup (costFunction : FunctionToBeOptimized) (s : Simplex) : Simplex × verticesVector :=
  let s := { s with mFunction := costFunction }
  let s := { s with mDimension := costFunction.getParSpaceDim }
  let s := setStepSize s
  let A : verticesVector := []
  let A :=
    if s.Acopy.isEmpty then
      let A := resize A (s.mDimension + 1) default
      initializeVertices s A
    else s.Acopy
  let A := forLoop 0 (s.mDimension + 1) (fun i (A : verticesVector) =>
    A.set i (checkBoundaryCondition s (A.getD i default))) A
  (s, A)

/-- The method `Simplex::algorithm(costFunction)`: the returned `Result` and the
engine state after the call. -/
def algorithm (fuel : Nat) (costFunction : FunctionToBeOptimized) (s : Simplex) :
    Option (Result × Simplex) :=
  let (s, A) := setup costFunction s
  match whileLoop costFunction fuel s A with
  | none => none
  | some (s, A) =>
    let result : Result := default
    some (pushResult s result (A.getD 0 default), s)

end Simplex

/-- A two-parameter cost function used for the concrete instances below:
`f(x, y) = x^2 + y^2`, start `(5, 5)`, bounds `[-10, 10]` in each dimension. -/
def sumOfSquares : FunctionToBeOptimized :=
  { mParameters := [⟨"x", 5, -10, 10⟩, ⟨"y", 5, -10, 10⟩],
    getParSpaceDim := 2,
    evaluate := fun v => v.getD 0 0 ^ 2 + v.getD 1 0 ^ 2,
    getEvaluation := fun v => v.getD 0 0 ^ 2 + v.getD 1 0 ^ 2 }

/-- An engine built by the constructor and bound to `sumOfSquares`, as
`Simplex::algorithm` binds it in its first two statements. -/
def sumOfSquaresEngine (stop : Int) : Simplex :=
  { Simplex.ctor stop with mFunction := sumOfSquares, mDimension := sumOfSquares.getParSpaceDim }

/-- The engine state on entry to the loop of `Simplex::algorithm`, for an engine
fresh from the constructor: the cost function bound, the dimension read, and the
step sizes set by the no-argument `setStepSize`. -/
def Simplex.freshState (costFunction : FunctionToBeOptimized) (stop : Int) : Simplex :=
  Simplex.setStepSize { Simplex.ctor stop with mFunction := costFunction,
                                               mDimension := costFunction.getParSpaceDim }

/-- A one-parameter cost function used for the concrete runs below:
`f(x) = (x + 7)^2`, start `0`, bounds `[-10, 10]`. -/
def shiftedSquare : FunctionToBeOptimized :=
  { mParameters := [⟨"x", 0, -10, 10⟩],
    getParSpaceDim := 1,
    evaluate := fun v => (v.getD 0 0 + 7) ^ 2,
    getEvaluation := fun v => (v.getD 0 0 + 7) ^ 2 }

/-- Himmelblau's function `f(x, y) = (x^2 + y - 11)^2 + (x + y^2 - 7)^2` with
start `(-2, -3)` and bounds `[-10, 10]` in each dimension. -/
def himmelblau : FunctionToBeOptimized :=
  { mParameters := [⟨"x", -2, -10, 10⟩, ⟨"y", -3, -10, 10⟩],
    getParSpaceDim := 2,
    evaluate := fun v => (v.getD 0 0 ^ 2 + v.getD 1 0 - 11) ^ 2 + (v.getD 0 0 + v.getD 1 0 ^ 2 - 7) ^ 2,
    getEvaluation := fun v =>
      (v.getD 0 0 ^ 2 + v.getD 1 0 - 11) ^ 2 + (v.getD 0 0 + v.getD 1 0 ^ 2 - 7) ^ 2 }

/-- The body of the `while` loop of `Simplex::algorithm` run `n` times in a row,
each pass preceded by the counter increment of a passing
`checkStoppingCondition`. -/
def Simplex.cycles (costFunction : FunctionToBeOptimized) :
    Nat → Simplex → verticesVector → Simplex × verticesVector
  | 0, s, A => (s, A)
  | n + 1, s, A =>
    let (s, A) := Simplex.cycle costFunction
      { s with currentIteration := s.currentIteration + 1 } A
    Simplex.cycles costFunction n s A

/-- The evaluation loop that opens the body of the `while` loop (the Evaluate
step), before the `sort` call. -/
def Simplex.evaluateVertices (costFunction : FunctionToBeOptimized) (s : Simplex)
    (A : verticesVector) : verticesVector :=
  forLoop 0 (s.mDimension + 1) (fun iVertex (A : verticesVector) =>
    A.set iVertex { A.getD iVertex default with
      second := costFunction.getEvaluation (A.getD iVertex default).first }) A

/-- The shape of a simplex in dimension `n`: exactly `n + 1` vertices, each with a
parameter vector of length `n`. -/
def Simplex.wellShaped (n : Nat) (A : verticesVector) : Prop :=
  A.length = n + 1 ∧ ∀ v, v ∈ A → v.first.length = n

/-- Every coordinate `k` of every vertex of `A` lies in `[left_k, right_k]`. -/
def Simplex.inBounds (s : Simplex) (A : verticesVector) : Prop :=
  ∀ v, v ∈ A → ∀ (k : Nat) (x : ℚ), k < s.mDimension → v.first[k]? = some x →
    (s.parameter k).getLeftBoundary ≤ x ∧ x ≤ (s.parameter k).getRightBoundary

/-- A one-parameter cost function whose starting value lies outside its bounds:
`f(x) = (x + 7)^2`, start `20`, bounds `[-10, 10]`. -/
def startOutOfBounds : FunctionToBeOptimized :=
  { mParameters := [⟨"x", 20, -10, 10⟩],
    getParSpaceDim := 1,
    evaluate := fun v => (v.getD 0 0 + 7) ^ 2,
    getEvaluation := fun v => (v.getD 0 0 + 7) ^ 2 }

/-- An engine holding a cached vertex set, as `restore()` or an earlier run leaves
it: three vertices in dimension 2, the first with the coordinate `20`. -/
def restoredEngine : Simplex :=
  { Simplex.ctor 10 with
    currentIteration := 4,
    Acopy := [⟨[20, 0], 400⟩, ⟨[0, 0], 0⟩, ⟨[0, 5], 25⟩] }

/-! ## Loops -/

theorem forLoop_self {σ : Type} (lo : Nat) (body : Nat → σ → σ) (init : σ) :
    forLoop lo lo body init = init := by
  simp [forLoop]

theorem forLoop_succ {σ : Type} (lo hi : Nat) (h : lo ≤ hi) (body : Nat → σ → σ) (init : σ) :
    forLoop lo (hi + 1) body init = body hi (forLoop lo hi body init) := by
  unfold forLoop
  have e : hi + 1 - lo = (hi - lo) + 1 := by omega
  rw [e, List.range'_1_concat, List.foldl_append]
  have e2 : lo + (hi - lo) = hi := by omega
  simp [e2]

theorem forLoop_set_length {α : Type} (g : Nat → List α → α) (n : Nat) (v : List α) :
    (forLoop 0 n (fun i v => v.set i (g i v)) v).length = v.length := by
  induction n with
  | zero => simp [forLoop_self]
  | succ n ih => rw [forLoop_succ 0 n (Nat.zero_le n)]; simp [ih]

theorem forLoop_set_getElem? {α : Type} (d : α) (h : Nat → α → α) (n : Nat) (v : List α)
    (k : Nat) :
    (forLoop 0 n (fun i v => v.set i (h i (v.getD i d))) v)[k]? =
      if k < n then v[k]?.map (h k) else v[k]? := by
  induction n with
  | zero => simp [forLoop_self]
  | succ n ih =>
    rw [forLoop_succ 0 n (Nat.zero_le n)]
    rw [List.getElem?_set]
    by_cases hnk : n = k
    · subst hnk
      have hlen := forLoop_set_length (fun i v => h i (v.getD i d)) n v
      simp only [if_true, hlen, Nat.lt_succ_self]
      have ih2 : (forLoop 0 n (fun i v => v.set i (h i (v.getD i d))) v)[n]? = v[n]? := by
        rw [ih]; simp
      rw [List.getD_eq_getElem?_getD, ih2]
      by_cases hl : n < v.length
      · simp [hl]
      · simp only [hl, if_false]
        rw [List.getElem?_eq_none (by omega)]; simp
    · simp only [hnk, if_false, ih]
      by_cases h1 : k < n
      · simp [h1, Nat.lt_succ_of_lt h1]
      · have : ¬ k < n + 1 := by omega
        simp [h1, this]


theorem forLoop_first (g : Nat → List ℚ → ℚ) (n : Nat) (V : vertex) :
    forLoop 0 n (fun i (V : vertex) => { V with first := (V.first.set i (g i V.first)) }) V =
      { V with first := forLoop 0 n (fun i v => v.set i (g i v)) V.first } := by
  induction n with
  | zero => simp [forLoop_self]
  | succ n ih => rw [forLoop_succ 0 n (Nat.zero_le n), forLoop_succ 0 n (Nat.zero_le n), ih]

theorem resize_nil_length {α : Type} (n : Nat) (fill : α) : (resize [] n fill).length = n := by
  simp [resize]

theorem resize_nil_getElem? {α : Type} (n k : Nat) (fill : α) :
    (resize [] n fill)[k]? = if k < n then some fill else none := by
  simp [resize, List.getElem?_replicate]

/-- A loop that writes `g i` to index `i` of a fresh vector of size `n`. -/
theorem forLoop_fill_getElem? (g : Nat → ℚ) (n k : Nat) :
    (forLoop 0 n (fun i v => v.set i (g i)) (resize [] n 0))[k]? =
      if k < n then some (g k) else none := by
  have h := forLoop_set_getElem? (0 : ℚ) (fun i _ => g i) n (resize [] n 0) k
  simp only [] at h
  rw [h, resize_nil_getElem?]
  by_cases hk : k < n <;> simp [hk]

theorem forLoop_fresh (g : Nat → ℚ) (n : Nat) :
    forLoop 0 n (fun i v => v.set i (g i)) (resize [] n 0) = (List.range n).map g := by
  apply List.ext_getElem?
  intro k
  rw [forLoop_fill_getElem?]
  by_cases hk : k < n
  · simp [hk, List.getElem?_range hk]
  · rw [if_neg hk, eq_comm, List.getElem?_eq_none]
    simp only [List.length_map, List.length_range]
    omega

theorem set_getD_self (l : List ℚ) (k : Nat) : l.set k (l.getD k 0) = l := by
  by_cases hk : k < l.length
  · apply List.ext_getElem?
    intro j
    rw [List.getElem?_set, List.getD_eq_getElem l 0 hk]
    by_cases hj : k = j
    · subst hj; simp [hk]
    · simp [hj]
  · exact List.set_eq_of_length_le (by omega)

theorem set_set_getD (l : List ℚ) (k : Nat) (x : ℚ) (h : ℚ → ℚ) :
    (l.set k x).set k (h ((l.set k x).getD k 0)) = l.set k (h x) := by
  by_cases hk : k < l.length
  · rw [List.set_set, List.getD_eq_getElem?_getD, List.getElem?_set]
    simp [hk]
  · rw [List.set_eq_of_length_le (by omega : l.length ≤ k)]
    rw [List.set_eq_of_length_le (by omega : l.length ≤ k)]
    rw [List.set_eq_of_length_le (by omega : l.length ≤ k)]

/-- A loop that adds `a 0`, ..., `a (m - 1)` in turn to coordinate `k`. -/
theorem forLoop_accumulate (a : Nat → ℚ) (k m : Nat) (M : vertex) :
    forLoop 0 m (fun iVertex (M : vertex) =>
        { M with first := (M.first.set k (M.first.getD k 0 + a iVertex)) }) M =
      { M with first := M.first.set k (M.first.getD k 0 + ∑ i ∈ Finset.range m, a i) } := by
  induction m with
  | zero =>
    rw [forLoop_self, Finset.sum_range_zero, add_zero, set_getD_self]
  | succ m ih =>
    rw [forLoop_succ 0 m (Nat.zero_le m), ih]
    simp only []
    rw [set_set_getD M.first k _ (fun x => x + a m), Finset.sum_range_succ, add_assoc]

theorem sum_range_getD {α : Type} (d : α) (f : α → ℚ) (A : List α) (n : Nat)
    (h : n ≤ A.length) :
    ∑ i ∈ Finset.range n, f (A.getD i d) = ((A.take n).map f).sum := by
  induction n with
  | zero => simp
  | succ n ih =>
    have hn : n < A.length := by omega
    rw [Finset.sum_range_succ, ih (by omega), List.take_succ, List.getElem?_eq_getElem hn,
      List.getD_eq_getElem A d hn, Option.toList, List.map_append, List.sum_append]
    simp

theorem forLoop_congr_inv {σ : Type} (P : σ → Prop) (lo hi : Nat) (body body2 : Nat → σ → σ)
    (init : σ) (hP : P init)
    (hstep : ∀ i st, lo ≤ i → i < hi → P st → body i st = body2 i st ∧ P (body2 i st)) :
    forLoop lo hi body init = forLoop lo hi body2 init ∧ P (forLoop lo hi body2 init) := by
  by_cases hlh : lo ≤ hi
  · induction hi, hlh using Nat.le_induction with
    | base => rw [forLoop_self, forLoop_self]; exact ⟨rfl, hP⟩
    | succ n hn ih =>
      obtain ⟨h1, h2⟩ := ih (fun i st hi1 hi2 hp => hstep i st hi1 (by omega) hp)
      rw [forLoop_succ lo n hn, forLoop_succ lo n hn, h1]
      exact hstep n _ hn (by omega) h2
  · have e : hi - lo = 0 := by omega
    have e1 : ∀ b : Nat → σ → σ, forLoop lo hi b init = init := by
      intro b
      simp only [forLoop, e, List.range'_zero, List.foldl_nil]
    rw [e1, e1]
    exact ⟨rfl, hP⟩

theorem forLoop_set_getElem?_from {α : Type} (d : α) (h : Nat → α → α) (lo hi : Nat)
    (hlh : lo ≤ hi) (v : List α) (k : Nat) :
    (forLoop lo hi (fun i v => v.set i (h i (v.getD i d))) v)[k]? =
      if lo ≤ k ∧ k < hi then v[k]?.map (h k) else v[k]? := by
  induction hi, hlh using Nat.le_induction with
  | base =>
    rw [forLoop_self]
    have : ¬ (lo ≤ k ∧ k < lo) := by omega
    rw [if_neg this]
  | succ n hn ih =>
    rw [forLoop_succ lo n hn, List.getElem?_set]
    have hlen : (forLoop lo n (fun i v => v.set i (h i (v.getD i d))) v).length = v.length := by
      clear ih
      induction n, hn using Nat.le_induction with
      | base => rw [forLoop_self]
      | succ m hm ih2 => rw [forLoop_succ lo m hm, List.length_set, ih2]
    by_cases hnk : n = k
    · subst hnk
      have ih2 : (forLoop lo n (fun i v => v.set i (h i (v.getD i d))) v)[n]? = v[n]? := by
        rw [ih]
        have : ¬ (lo ≤ n ∧ n < n) := by omega
        rw [if_neg this]
      rw [if_pos rfl, hlen, List.getD_eq_getElem?_getD, ih2]
      have hc : lo ≤ n ∧ n < n + 1 := ⟨hn, Nat.lt_succ_self n⟩
      rw [if_pos hc]
      by_cases hl : n < v.length
      · simp [hl]
      · rw [if_neg hl, List.getElem?_eq_none (by omega)]; rfl
    · rw [if_neg hnk, ih]
      by_cases h1 : lo ≤ k ∧ k < n
      · have : lo ≤ k ∧ k < n + 1 := ⟨h1.1, by omega⟩
        rw [if_pos h1, if_pos this]
      · have : ¬ (lo ≤ k ∧ k < n + 1) := by omega
        rw [if_neg h1, if_neg this]

theorem forLoop_fill (g : Nat → ℚ) (n : Nat) (v : List ℚ) (hv : v.length = n) :
    forLoop 0 n (fun i v => v.set i (g i)) v = (List.range n).map g := by
  apply List.ext_getElem?
  intro k
  have h := forLoop_set_getElem? (0 : ℚ) (fun i _ => g i) n v k
  simp only [] at h
  rw [h]
  by_cases hk : k < n
  · rw [if_pos hk, List.getElem?_eq_getElem (by omega : k < v.length)]
    simp [List.getElem?_range hk]
  · rw [if_neg hk, List.getElem?_eq_none (by omega), eq_comm, List.getElem?_eq_none]
    simp only [List.length_map, List.length_range]
    omega

theorem resize_length {α : Type} (v : List α) (n : Nat) (fill : α) :
    (resize v n fill).length = n := by
  simp only [resize, List.length_append, List.length_take, List.length_replicate]
  omega

theorem forLoop_set_eq_map {α : Type} (d : α) (h : α → α) (n : Nat) (v : List α)
    (hv : v.length ≤ n) :
    forLoop 0 n (fun i v => v.set i (h (v.getD i d))) v = v.map h := by
  apply List.ext_getElem?
  intro k
  have e := forLoop_set_getElem? d (fun _ x => h x) n v k
  simp only [] at e
  rw [e, List.getElem?_map]
  by_cases hk : k < n
  · rw [if_pos hk]
  · rw [if_neg hk, List.getElem?_eq_none (by omega)]
    rfl

namespace Simplex

/-! ## The stopping check -/

/-- C8: `checkStoppingCondition` returns false exactly when the iteration counter
has reached the budget or the `checkboundary` flag is non-empty; a failing check
leaves the counter unchanged and a passing check advances it by exactly one. -/
theorem checkStoppingCondition_spec (s : Simplex) :
    ((checkStoppingCondition s).1 = false ↔
      (s.currentIteration ≥ s.stoppingIteration ∨
        s.getAdditionalInformation "checkboundary" ≠ "")) ∧
    (checkStoppingCondition s).2.currentIteration =
      (if (checkStoppingCondition s).1 then s.currentIteration + 1 else s.currentIteration) := by
  unfold checkStoppingCondition
  by_cases h1 : s.currentIteration ≥ s.stoppingIteration
  · simp [h1]
  · by_cases h2 : s.getAdditionalInformation "checkboundary" ≠ ""
    · simp [h1, h2]
    · simp [h1, h2]

/-! ## The boundary clamp -/

theorem clampCoordinate_of_mem {left right x : ℚ} (h1 : left ≤ x) (h2 : x ≤ right) :
    clampCoordinate left right x = x := by
  simp [clampCoordinate, not_lt.mpr h1, not_lt.mpr h2]

theorem clampCoordinate_mem {left right : ℚ} (h : left ≤ right) (x : ℚ) :
    left ≤ clampCoordinate left right x ∧ clampCoordinate left right x ≤ right := by
  unfold clampCoordinate
  by_cases h1 : x < left
  · simp [h1, not_lt.mpr h, h]
  · by_cases h2 : x > right
    · simp [h1, h2, h]
    · simp [h1, h2]
      exact ⟨not_lt.mp h1, not_lt.mp h2⟩

theorem checkBoundaryCondition_getElem? (s : Simplex) (A : vertex) (k : Nat) :
    (checkBoundaryCondition s A).first[k]? =
      if k < s.mDimension then
        A.first[k]?.map
          (clampCoordinate (s.parameter k).getLeftBoundary (s.parameter k).getRightBoundary)
      else A.first[k]? := by
  unfold checkBoundaryCondition
  exact forLoop_set_getElem? (0 : ℚ)
    (fun i x => clampCoordinate (s.parameter i).getLeftBoundary (s.parameter i).getRightBoundary x)
    s.mDimension A.first k

theorem checkBoundaryCondition_second (s : Simplex) (A : vertex) :
    (checkBoundaryCondition s A).second = A.second := rfl

theorem vertex_ext {A B : vertex} (h1 : A.first = B.first) (h2 : A.second = B.second) :
    A = B := by
  cases A; cases B; simp_all

/-- C5: `checkBoundaryCondition` returns a vertex already within bounds
unchanged, clamping twice equals clamping once, and coordinate `k` of the result
is a function of coordinate `k` of the input and of `(left_k, right_k)` only. -/
theorem checkBoundaryCondition_idempotent (s : Simplex) (A : vertex)
    (hb : ∀ k, k < s.mDimension →
      (s.parameter k).getLeftBoundary ≤ (s.parameter k).getRightBoundary) :
    ((∀ k x, k < s.mDimension → A.first[k]? = some x →
        (s.parameter k).getLeftBoundary ≤ x ∧ x ≤ (s.parameter k).getRightBoundary) →
      checkBoundaryCondition s A = A) ∧
    checkBoundaryCondition s (checkBoundaryCondition s A) = checkBoundaryCondition s A ∧
    (∀ k, k < s.mDimension → (checkBoundaryCondition s A).first[k]? =
      A.first[k]?.map
        (clampCoordinate (s.parameter k).getLeftBoundary (s.parameter k).getRightBoundary)) ∧
    (∀ (t : Simplex) (B : vertex) (k : Nat), k < s.mDimension → k < t.mDimension →
      (t.parameter k).getLeftBoundary = (s.parameter k).getLeftBoundary →
      (t.parameter k).getRightBoundary = (s.parameter k).getRightBoundary →
      B.first[k]? = A.first[k]? →
      (checkBoundaryCondition t B).first[k]? = (checkBoundaryCondition s A).first[k]?) := by
  refine ⟨?_, ?_, ?_, ?_⟩
  · intro hin
    refine vertex_ext ?_ rfl
    apply List.ext_getElem?
    intro k
    rw [checkBoundaryCondition_getElem?]
    by_cases hk : k < s.mDimension
    · simp only [hk, if_true]
      cases hx : A.first[k]? with
      | none => rfl
      | some x =>
        obtain ⟨h1, h2⟩ := hin k x hk hx
        simp [clampCoordinate_of_mem h1 h2]
    · simp [hk]
  · refine vertex_ext ?_ rfl
    apply List.ext_getElem?
    intro k
    rw [checkBoundaryCondition_getElem?]
    by_cases hk : k < s.mDimension
    · simp only [hk, if_true]
      rw [checkBoundaryCondition_getElem?]
      simp only [hk, if_true]
      cases hx : A.first[k]? with
      | none => rfl
      | some x =>
        obtain ⟨h1, h2⟩ := clampCoordinate_mem (hb k hk) x
        simp [clampCoordinate_of_mem h1 h2]
    · simp [hk]
  · intro k hk
    rw [checkBoundaryCondition_getElem?]
    simp [hk]
  · intro t B k hk hk2 hl hr hB
    rw [checkBoundaryCondition_getElem?, checkBoundaryCondition_getElem?]
    simp [hk, hk2, hl, hr, hB]

/-! ## Reflection and centroid -/

theorem getReflectedPoint_first (s : Simplex) (M Aj : vertex) :
    (getReflectedPoint s M Aj).first = (List.range s.mDimension).map (fun k =>
      M.first.getD k 0 + s.getMetaParameter "alpha" * (M.first.getD k 0 - Aj.first.getD k 0)) := by
  unfold getReflectedPoint
  simp only []
  rw [forLoop_first (fun iPar _ => M.first.getD iPar 0 +
    s.getMetaParameter "alpha" * (M.first.getD iPar 0 - Aj.first.getD iPar 0))]
  exact forLoop_fresh _ _

theorem getCentroid_first (s : Simplex) (A : verticesVector) (nExcluded : Nat) :
    (getCentroid s A nExcluded).first = (List.range s.mDimension).map (fun k =>
      (∑ i ∈ Finset.range (s.mDimension + 1 - nExcluded), (A.getD i default).first.getD k 0) /
        ((s.mDimension + 1 - nExcluded : Nat) : ℚ)) := by
  unfold getCentroid
  simp only []
  have hbody : (fun iPar (M : vertex) =>
      ({ forLoop 0 (s.mDimension + 1 - nExcluded) (fun iVertex (M : vertex) =>
          { M with first := (M.first.set iPar
            (M.first.getD iPar 0 + (A.getD iVertex default).first.getD iPar 0)) }) M with
        first := ((forLoop 0 (s.mDimension + 1 - nExcluded) (fun iVertex (M : vertex) =>
          { M with first := (M.first.set iPar
            (M.first.getD iPar 0 + (A.getD iVertex default).first.getD iPar 0)) }) M).first.set iPar
          ((forLoop 0 (s.mDimension + 1 - nExcluded) (fun iVertex (M : vertex) =>
          { M with first := (M.first.set iPar
            (M.first.getD iPar 0 + (A.getD iVertex default).first.getD iPar 0)) }) M).first.getD iPar 0 /
            ((s.mDimension + 1 - nExcluded : Nat) : ℚ))) } : vertex)) =
      (fun iPar (M : vertex) => { M with first := (M.first.set iPar
        ((fun i (v : List ℚ) => (v.getD i 0 +
          ∑ j ∈ Finset.range (s.mDimension + 1 - nExcluded), (A.getD j default).first.getD i 0) /
            ((s.mDimension + 1 - nExcluded : Nat) : ℚ)) iPar M.first)) }) := by
    funext iPar M
    rw [forLoop_accumulate (fun iVertex => (A.getD iVertex default).first.getD iPar 0)]
    simp only []
    rw [set_set_getD M.first iPar _ (fun x => x / ((s.mDimension + 1 - nExcluded : Nat) : ℚ))]
  rw [hbody, forLoop_first (fun i (v : List ℚ) => (v.getD i 0 +
          ∑ j ∈ Finset.range (s.mDimension + 1 - nExcluded), (A.getD j default).first.getD i 0) /
            ((s.mDimension + 1 - nExcluded : Nat) : ℚ))]
  simp only []
  apply List.ext_getElem?
  intro k
  have h := forLoop_set_getElem? (0 : ℚ) (fun i x => (x +
          ∑ j ∈ Finset.range (s.mDimension + 1 - nExcluded), (A.getD j default).first.getD i 0) /
            ((s.mDimension + 1 - nExcluded : Nat) : ℚ)) s.mDimension (resize [] s.mDimension 0) k
  simp only [] at h
  show (forLoop 0 s.mDimension _ (resize [] s.mDimension 0))[k]? = _
  rw [h, resize_nil_getElem?]
  by_cases hk : k < s.mDimension
  · simp [hk, List.getElem?_range hk]
  · rw [if_neg hk, if_neg hk, eq_comm, List.getElem?_eq_none]
    simp only [List.length_map, List.length_range]
    omega

/-- C7: for every centroid `M`, vertex `Aj` and coefficient `alpha`, coordinate `k`
of `getReflectedPoint` is `M_k + alpha * (M_k - Aj_k)`; for `M = (1,0)`,
`Aj = (0,2)`, `alpha = 1` the reflected point is `(2,-2)`. -/
theorem getReflectedPoint_spec (s : Simplex) (M Aj : vertex) :
    (getReflectedPoint s M Aj).first.length = s.mDimension ∧
    (∀ (k : Nat) (m a : ℚ), k < s.mDimension → M.first[k]? = some m → Aj.first[k]? = some a →
      (getReflectedPoint s M Aj).first[k]? =
        some (m + s.getMetaParameter "alpha" * (m - a))) ∧
    (∀ (t : Simplex) (c d : ℚ), t.mDimension = 2 → t.getMetaParameter "alpha" = 1 →
      (getReflectedPoint t ⟨[1, 0], c⟩ ⟨[0, 2], d⟩).first = [2, -2]) := by
  refine ⟨?_, ?_, ?_⟩
  · rw [getReflectedPoint_first]; simp
  · intro k m a hk hm ha
    rw [getReflectedPoint_first, List.getElem?_map, List.getElem?_range hk]
    show some (M.first.getD k 0 +
      s.getMetaParameter "alpha" * (M.first.getD k 0 - Aj.first.getD k 0)) = _
    rw [List.getD_eq_getElem?_getD, List.getD_eq_getElem?_getD, hm, ha]
    rfl
  · intro t c d ht ha
    rw [getReflectedPoint_first, ht, ha]
    simp [List.range_succ]
    norm_num

/-- C6: for a vertex set of `N + 1` vertices, coordinate `k` of
`getCentroid(A, 1)` is the arithmetic mean of coordinate `k` over the `N` vertices
`A[0..N-1]` (all but the last, `A[N]`); for best vertices `(0,0)`, `(2,0)` and
worst vertex `(0,2)` the centroid is `(1,0)`. -/
theorem getCentroid_spec (s : Simplex) (A : verticesVector)
    (hA : A.length = s.mDimension + 1) :
    (getCentroid s A 1).first.length = s.mDimension ∧
    A.take s.mDimension = A.dropLast ∧
    (∀ k, k < s.mDimension → (getCentroid s A 1).first[k]? =
      some (((A.take s.mDimension).map (fun v => v.first.getD k 0)).sum / (s.mDimension : ℚ))) ∧
    (∀ (t : Simplex) (c0 c1 c2 : ℚ), t.mDimension = 2 →
      (getCentroid t [⟨[0, 0], c0⟩, ⟨[2, 0], c1⟩, ⟨[0, 2], c2⟩] 1).first = [1, 0]) := by
  refine ⟨?_, ?_, ?_, ?_⟩
  · rw [getCentroid_first]; simp
  · rw [List.dropLast_eq_take, hA]; rfl
  · intro k hk
    rw [getCentroid_first, List.getElem?_map, List.getElem?_range hk]
    simp only [Option.map_some', Nat.add_sub_cancel]
    rw [sum_range_getD default (fun v => v.first.getD k 0) A s.mDimension (by omega)]
  · intro t c0 c1 c2 ht
    rw [getCentroid_first, ht]
    simp [List.range_succ, Finset.sum_range_succ]

/-- A concrete instance of `getCentroid_spec`: dimension 2 and the vertex set
`(0,0)`, `(2,0)`, `(0,2)`. -/
theorem getCentroid_spec_witness :
    ([⟨[0, 0], 0⟩, ⟨[2, 0], 4⟩, ⟨[0, 2], 4⟩] : verticesVector).length =
      (sumOfSquaresEngine 0).mDimension + 1 ∧
    (getCentroid (sumOfSquaresEngine 0) [⟨[0, 0], 0⟩, ⟨[2, 0], 4⟩, ⟨[0, 2], 4⟩] 1).first[0]? =
      some (((([⟨[0, 0], 0⟩, ⟨[2, 0], 4⟩, ⟨[0, 2], 4⟩] : verticesVector).take
        (sumOfSquaresEngine 0).mDimension).map (fun v => v.first.getD 0 0)).sum /
          ((sumOfSquaresEngine 0).mDimension : ℚ)) :=
  ⟨by rfl, (getCentroid_spec (sumOfSquaresEngine 0) [⟨[0, 0], 0⟩, ⟨[2, 0], 4⟩, ⟨[0, 2], 4⟩]
    (by rfl)).2.2.1 0 (by decide)⟩

/-- A concrete instance of `checkBoundaryCondition_idempotent`: the bounds
`[-10, 10]` of `sumOfSquares` and the vertex `(12, -11)`. -/
theorem checkBoundaryCondition_idempotent_witness :
    (∀ k, k < (sumOfSquaresEngine 0).mDimension →
      ((sumOfSquaresEngine 0).parameter k).getLeftBoundary ≤
        ((sumOfSquaresEngine 0).parameter k).getRightBoundary) ∧
    checkBoundaryCondition (sumOfSquaresEngine 0)
        (checkBoundaryCondition (sumOfSquaresEngine 0) ⟨[12, -11], 7⟩) =
      checkBoundaryCondition (sumOfSquaresEngine 0) ⟨[12, -11], 7⟩ :=
  ⟨by decide, (checkBoundaryCondition_idempotent (sumOfSquaresEngine 0) ⟨[12, -11], 7⟩
    (by decide)).2.1⟩

/-! ## The Order step -/

theorem sortInsert_perm (a : vertex) (l : verticesVector) : (sortInsert a l).Perm (a :: l) := by
  induction l with
  | nil => exact List.Perm.refl _
  | cons b l ih =>
    unfold sortInsert
    by_cases h : sortLess a b = true
    · rw [if_pos h]
    · rw [if_neg h]
      exact (List.Perm.cons b ih).trans (List.Perm.swap a b l)

theorem sortInsert_pairwise (a : vertex) (l : verticesVector)
    (hl : l.Pairwise (fun x y => x.second ≤ y.second)) :
    (sortInsert a l).Pairwise (fun x y => x.second ≤ y.second) := by
  induction l with
  | nil => simp [sortInsert]
  | cons b l ih =>
    rw [List.pairwise_cons] at hl
    unfold sortInsert
    by_cases h : sortLess a b = true
    · rw [if_pos h]
      have hab : a.second < b.second := of_decide_eq_true h
      refine List.Pairwise.cons ?_ (List.Pairwise.cons hl.1 hl.2)
      intro y hy
      rcases List.mem_cons.mp hy with rfl | hy
      · exact le_of_lt hab
      · exact le_trans (le_of_lt hab) (hl.1 y hy)
    · rw [if_neg h]
      have hba : b.second ≤ a.second := by
        have : ¬ a.second < b.second := fun hlt => h (decide_eq_true hlt)
        exact not_lt.mp this
      refine List.Pairwise.cons ?_ (ih hl.2)
      intro y hy
      rcases List.mem_cons.mp ((sortInsert_perm a l).mem_iff.mp hy) with rfl | hy
      · exact hba
      · exact hl.1 y hy

theorem sort_foldl_spec (A acc : verticesVector)
    (hacc : acc.Pairwise (fun x y => x.second ≤ y.second)) :
    (A.foldl (fun sorted a => sortInsert a sorted) acc).Pairwise
        (fun x y => x.second ≤ y.second) ∧
      (A.foldl (fun sorted a => sortInsert a sorted) acc).Perm (acc ++ A) := by
  induction A generalizing acc with
  | nil => simpa using hacc
  | cons a A ih =>
    obtain ⟨h1, h2⟩ := ih (sortInsert a acc) (sortInsert_pairwise a acc hacc)
    refine ⟨h1, h2.trans ?_⟩
    have h3 : (sortInsert a acc ++ A).Perm ((a :: acc) ++ A) :=
      List.Perm.append_right A (sortInsert_perm a acc)
    refine h3.trans ?_
    simpa using (@List.perm_middle _ a acc A).symm

theorem sort_perm (A : verticesVector) : (sort A).Perm A := by
  simpa [sort] using (sort_foldl_spec A [] List.Pairwise.nil).2

theorem sort_pairwise (A : verticesVector) :
    (sort A).Pairwise (fun x y => x.second ≤ y.second) :=
  (sort_foldl_spec A [] List.Pairwise.nil).1

/-- C4: after the `sort` call of a cycle the costs are non-decreasing from index 0
to index N, and the sorted vertex set is a permutation of the one before the
sort. -/
theorem sort_spec (A : verticesVector) :
    (∀ i j : Nat, i ≤ j → j < (sort A).length →
      ((sort A).getD i default).second ≤ ((sort A).getD j default).second) ∧
    ((sort A).map (fun v => v.second)).Sorted (fun x y => x ≤ y) ∧
    (sort A).Perm A ∧
    (sort A).length = A.length := by
  have h2 : (sort A).Perm A := sort_perm A
  have h1 : (sort A).Pairwise (fun x y => x.second ≤ y.second) := sort_pairwise A
  refine ⟨?_, ?_, h2, h2.length_eq⟩
  · intro i j hij hj
    rcases Nat.eq_or_lt_of_le hij with rfl | hlt
    · exact le_refl _
    · rw [List.getD_eq_getElem _ _ hj, List.getD_eq_getElem _ _ (by omega : i < (sort A).length)]
      exact List.pairwise_iff_getElem.mp h1 i j (by omega) hj hlt
  · exact List.pairwise_map.mpr h1

/-! ## Initialisation of the vertex set -/

theorem getD_set_self (A : verticesVector) (i : Nat) (V : vertex) (hi : i < A.length) :
    (A.set i V).getD i default = V := by
  rw [List.getD_eq_getElem?_getD, List.getElem?_set]
  simp [hi]

theorem getD_set_ne (A : verticesVector) (i j : Nat) (V : vertex) (hij : i ≠ j) :
    (A.set i V).getD j default = A.getD j default := by
  rw [List.getD_eq_getElem?_getD, List.getD_eq_getElem?_getD, List.getElem?_set]
  simp [hij]

/-- A loop that writes `g k` to `A[i].first[k]` for `k < n`. -/
theorem forLoop_setFirst (g : Nat → ℚ) (i n : Nat) (A : verticesVector) (hi : i < A.length) :
    forLoop 0 n (fun k A => setFirst A i k (g k)) A =
      A.set i { A.getD i default with
        first := forLoop 0 n (fun k v => v.set k (g k)) (A.getD i default).first } := by
  induction n with
  | zero =>
    rw [forLoop_self, forLoop_self]
    apply List.ext_getElem?
    intro j
    rw [List.getElem?_set]
    by_cases hj : i = j
    · subst hj
      simp [hi, List.getD_eq_getElem _ _ hi]
    · simp [hj]
  | succ n ih =>
    rw [forLoop_succ 0 n (Nat.zero_le n), forLoop_succ 0 n (Nat.zero_le n), ih]
    unfold setFirst
    rw [getD_set_self A i _ hi, List.set_set]

theorem initializeVertices_row (s : Simplex) (A : verticesVector) (i : Nat) (hi1 : 1 ≤ i)
    (hi : i < A.length) :
    forLoop 0 s.mDimension (fun iPar A =>
        if iPar = i - 1 then
          setFirst A i iPar
            ((A.getD 0 default).first.getD iPar 0 + s.stepSize.getD (i - 1) 0)
        else
          setFirst A i iPar ((A.getD 0 default).first.getD iPar 0))
        (resizeFirst A i s.mDimension) =
      A.set i { A.getD i default with
        first := (List.range s.mDimension).map (fun k =>
          if k = i - 1 then (A.getD 0 default).first.getD k 0 + s.stepSize.getD (i - 1) 0
          else (A.getD 0 default).first.getD k 0) } := by
  have hlen : (resizeFirst A i s.mDimension).length = A.length := by
    simp [resizeFirst]
  have h0 : (resizeFirst A i s.mDimension).getD 0 default = A.getD 0 default :=
    getD_set_ne A i 0 _ (by omega)
  obtain ⟨h1, -⟩ := forLoop_congr_inv
    (fun st : verticesVector => st.length = A.length ∧ st.getD 0 default = A.getD 0 default)
    0 s.mDimension
    (fun iPar A =>
        if iPar = i - 1 then
          setFirst A i iPar
            ((A.getD 0 default).first.getD iPar 0 + s.stepSize.getD (i - 1) 0)
        else
          setFirst A i iPar ((A.getD 0 default).first.getD iPar 0))
    (fun k st => setFirst st i k
      (if k = i - 1 then (A.getD 0 default).first.getD k 0 + s.stepSize.getD (i - 1) 0
        else (A.getD 0 default).first.getD k 0))
    (resizeFirst A i s.mDimension) ⟨hlen, h0⟩
    (by
      intro k st _ _ hst
      obtain ⟨hl, hz⟩ := hst
      refine ⟨?_, ?_, ?_⟩
      · simp only [hz]
        by_cases hk : k = i - 1
        · rw [if_pos hk, if_pos hk]
        · rw [if_neg hk, if_neg hk]
      · simp [setFirst, hl]
      · unfold setFirst
        rw [getD_set_ne st i 0 _ (by omega), hz])
  rw [h1, forLoop_setFirst _ i s.mDimension _ (by omega)]
  unfold resizeFirst
  rw [getD_set_self A i _ hi, List.set_set]
  simp only []
  rw [forLoop_fill _ _ _ (resize_length _ _ _)]

/-- The vertex set after `initializeVertices`, index by index. -/
theorem initializeVertices_getElem? (s : Simplex) (A : verticesVector)
    (hlen : A.length = s.mDimension + 1) (j : Nat) :
    (initializeVertices s A)[j]? =
      if j = 0 then
        some { A.getD 0 default with
          first := (List.range s.mDimension).map (fun k => (s.parameter k).getStartingValue) }
      else if j < s.mDimension + 1 then
        A[j]?.map (fun v => { v with
          first := (List.range s.mDimension).map (fun k =>
            if k = j - 1 then (s.parameter k).getStartingValue + s.stepSize.getD (j - 1) 0
            else (s.parameter k).getStartingValue) })
      else A[j]? := by
  have hA : 0 < A.length := by omega
  unfold initializeVertices
  simp only []
  -- vertex 0
  have e0 : forLoop 0 s.mDimension
      (fun iPar A => setFirst A 0 iPar (s.parameter iPar).getStartingValue)
      (resizeFirst A 0 s.mDimension) =
      A.set 0 { A.getD 0 default with
        first := (List.range s.mDimension).map (fun k => (s.parameter k).getStartingValue) } := by
    rw [forLoop_setFirst (fun k => (s.parameter k).getStartingValue) 0 s.mDimension _
      (by simpa [resizeFirst] using hA)]
    unfold resizeFirst
    rw [getD_set_self A 0 _ hA, List.set_set]
    simp only []
    rw [forLoop_fill _ _ _ (resize_length _ _ _)]
  rw [e0]
  generalize hV : ({ A.getD 0 default with
        first := (List.range s.mDimension).map (fun k => (s.parameter k).getStartingValue) }
        : vertex) = V0
  have hV0 : V0.first =
      (List.range s.mDimension).map (fun k => (s.parameter k).getStartingValue) := by
    rw [← hV]
  -- vertices 1..N
  obtain ⟨h1, -⟩ := forLoop_congr_inv
    (fun st : verticesVector => st.length = A.length ∧ st.getD 0 default = V0)
    1 (s.mDimension + 1)
    (fun iVertex A =>
      let A := resizeFirst A iVertex s.mDimension
      forLoop 0 s.mDimension (fun iPar A =>
        if iPar = iVertex - 1 then
          setFirst A iVertex iPar
            ((A.getD 0 default).first.getD iPar 0 + s.stepSize.getD (iVertex - 1) 0)
        else
          setFirst A iVertex iPar ((A.getD 0 default).first.getD iPar 0)) A)
    (fun i st => st.set i ((fun i (v : vertex) => ({ v with
      first := (List.range s.mDimension).map (fun k =>
          if k = i - 1 then V0.first.getD k 0 + s.stepSize.getD (i - 1) 0
          else V0.first.getD k 0) } : vertex)) i (st.getD i default)))
    (A.set 0 V0) ⟨by simp, getD_set_self A 0 V0 hA⟩
    (by
      intro i st hi1 hi2 hst
      obtain ⟨hl, hz⟩ := hst
      refine ⟨?_, ?_, ?_⟩
      · show forLoop 0 s.mDimension _ (resizeFirst st i s.mDimension) = _
        rw [initializeVertices_row s st i hi1 (by omega), hz]
      · simp [hl]
      · rw [getD_set_ne st i 0 _ (by omega), hz])
  rw [h1]
  have h2 := forLoop_set_getElem?_from (default : vertex) (fun i (v : vertex) => ({ v with
      first := (List.range s.mDimension).map (fun k =>
          if k = i - 1 then V0.first.getD k 0 + s.stepSize.getD (i - 1) 0
          else V0.first.getD k 0) } : vertex)) 1 (s.mDimension + 1) (by omega) (A.set 0 V0) j
  rw [h2, List.getElem?_set]
  by_cases hj : j = 0
  · subst hj
    simp [hA]
  · have hj2 : ¬ 0 = j := fun h => hj h.symm
    rw [if_neg hj, if_neg hj2]
    by_cases hjN : j < s.mDimension + 1
    · rw [if_pos ⟨by omega, hjN⟩, if_pos hjN]
      congr 1
      funext v
      congr 1
      apply List.map_congr_left
      intro k hk
      have hk2 : k < s.mDimension := List.mem_range.mp hk
      have : V0.first.getD k 0 = (s.parameter k).getStartingValue := by
        rw [hV0, List.getD_eq_getElem?_getD, List.getElem?_map, List.getElem?_range hk2]
        rfl
      rw [this]
    · have : ¬ (1 ≤ j ∧ j < s.mDimension + 1) := fun h => hjN h.2
      rw [if_neg this, if_neg hjN]


/-- C10: on a vertex set of `N + 1` vertices (`N ≥ 1`) and a step-size vector of
length `N`, `initializeVertices` makes vertex 0 the vector of starting values and
makes vertex `i` (`1 ≤ i ≤ N`) equal to vertex 0 in every coordinate except
coordinate `i - 1`, which is `start[i-1] + stepSize[i-1]`. -/
theorem initializeVertices_spec (s : Simplex) (A : verticesVector) (hN : 1 ≤ s.mDimension)
    (hA : A.length = s.mDimension + 1) (hstep : s.stepSize.length = s.mDimension)
    (hpar : s.mFunction.mParameters.length = s.mDimension) :
    (initializeVertices s A).length = s.mDimension + 1 ∧
    ((initializeVertices s A).getD 0 default).first =
      s.mFunction.mParameters.map (fun p => p.getStartingValue) ∧
    (∀ i, 1 ≤ i → i ≤ s.mDimension →
      ((initializeVertices s A).getD i default).first.length = s.mDimension) ∧
    (∀ i k, 1 ≤ i → i ≤ s.mDimension → k < s.mDimension →
      ∃ start step : ℚ,
        (s.mFunction.mParameters.map (fun p => p.getStartingValue))[k]? = some start ∧
        s.stepSize[i - 1]? = some step ∧
        ((initializeVertices s A).getD 0 default).first[k]? = some start ∧
        ((initializeVertices s A).getD i default).first[k]? =
          some (if k = i - 1 then start + step else start)) := by
  have hstart : (List.range s.mDimension).map (fun k => (s.parameter k).getStartingValue) =
      s.mFunction.mParameters.map (fun p => p.getStartingValue) := by
    apply List.ext_getElem?
    intro k
    rw [List.getElem?_map, List.getElem?_map]
    by_cases hk : k < s.mDimension
    · rw [List.getElem?_range hk, List.getElem?_eq_getElem (by omega)]
      simp only [Option.map_some', parameter]
      rw [List.getD_eq_getElem _ _ (by omega)]
    · rw [List.getElem?_eq_none (by simp; omega), List.getElem?_eq_none (by omega)]
      rfl
  have h0 : ((initializeVertices s A).getD 0 default).first =
      s.mFunction.mParameters.map (fun p => p.getStartingValue) := by
    rw [List.getD_eq_getElem?_getD, initializeVertices_getElem? s A hA 0, if_pos rfl, ← hstart]
    rfl
  have hi : ∀ i, 1 ≤ i → i ≤ s.mDimension →
      ((initializeVertices s A).getD i default).first =
        (List.range s.mDimension).map (fun k =>
          if k = i - 1 then (s.parameter k).getStartingValue + s.stepSize.getD (i - 1) 0
          else (s.parameter k).getStartingValue) := by
    intro i hi1 hi2
    rw [List.getD_eq_getElem?_getD, initializeVertices_getElem? s A hA i, if_neg (by omega),
      if_pos (by omega), List.getElem?_eq_getElem (by omega)]
    rfl
  refine ⟨?_, h0, ?_, ?_⟩
  · have hl : ∀ j : Nat, (initializeVertices s A)[j]? = none ↔ A[j]? = none := by
      intro j
      rw [initializeVertices_getElem? s A hA j]
      by_cases hj : j = 0
      · subst hj
        rw [if_pos rfl, List.getElem?_eq_getElem (by omega)]
        simp
      · rw [if_neg hj]
        by_cases hjN : j < s.mDimension + 1
        · rw [if_pos hjN]; simp
        · rw [if_neg hjN]
    have h1 := hl (s.mDimension + 1)
    have h2 := hl s.mDimension
    rw [List.getElem?_eq_none_iff, List.getElem?_eq_none_iff] at h1 h2
    omega
  · intro i hi1 hi2
    rw [hi i hi1 hi2]
    simp
  · intro i k hi1 hi2 hk
    refine ⟨(s.parameter k).getStartingValue, s.stepSize.getD (i - 1) 0, ?_, ?_, ?_, ?_⟩
    · rw [← hstart, List.getElem?_map, List.getElem?_range hk]; rfl
    · rw [List.getD_eq_getElem _ _ (by omega), List.getElem?_eq_getElem (by omega)]
    · rw [h0, ← hstart, List.getElem?_map, List.getElem?_range hk]; rfl
    · rw [hi i hi1 hi2, List.getElem?_map, List.getElem?_range hk]
      simp only [Option.map_some']

/-! ## The run with a zero budget -/

theorem pushResult_result (s : Simplex) (rs : Result) (V : vertex) :
    (pushResult s rs V).result = V.second := rfl

theorem pushResult_loop (s : Simplex) (rs : Result) (V : vertex) (n : Nat) (key : String) :
    ((forLoop 0 n (fun iPar (rs : Result) =>
      ({ rs with optimizationParameter := fun k =>
          if k = (s.parameter iPar).getName then some (V.first.getD iPar 0)
          else rs.optimizationParameter k } : Result)) rs).optimizationParameter key =
        rs.optimizationParameter key ∨
      ∃ k, k < n ∧ key = (s.parameter k).getName) ∧
    (∀ k, k < n → (∀ j, j < n → (s.parameter j).getName = (s.parameter k).getName → j = k) →
      key = (s.parameter k).getName →
      (forLoop 0 n (fun iPar (rs : Result) =>
        ({ rs with optimizationParameter := fun k =>
            if k = (s.parameter iPar).getName then some (V.first.getD iPar 0)
            else rs.optimizationParameter k } : Result)) rs).optimizationParameter key =
        some (V.first.getD k 0)) := by
  induction n with
  | zero =>
    rw [forLoop_self]
    exact ⟨Or.inl rfl, fun k hk => absurd hk (Nat.not_lt_zero k)⟩
  | succ n ih =>
    rw [forLoop_succ 0 n (Nat.zero_le n)]
    simp only []
    obtain ⟨ih1, ih2⟩ := ih
    by_cases hkey : key = (s.parameter n).getName
    · rw [if_pos hkey]
      refine ⟨Or.inr ⟨n, Nat.lt_succ_self n, hkey⟩, ?_⟩
      intro k _ hinj hk
      have : n = k := hinj n (Nat.lt_succ_self n) (by rw [← hkey, hk])
      rw [this]
    · rw [if_neg hkey]
      refine ⟨?_, ?_⟩
      · rcases ih1 with h | ⟨k, hk, hkk⟩
        · exact Or.inl h
        · exact Or.inr ⟨k, Nat.lt_succ_of_lt hk, hkk⟩
      · intro k hk hinj hkk
        have hkn : k ≠ n := fun h => hkey (by rw [hkk, h])
        exact ih2 k (by omega) (fun j hj hjk => hinj j (by omega) hjk) hkk

theorem setup_ctor_fst (costFunction : FunctionToBeOptimized) (stop : Int) :
    (setup costFunction (ctor stop)).1 = freshState costFunction stop := rfl

theorem freshState_fields (costFunction : FunctionToBeOptimized) (stop : Int) :
    (freshState costFunction stop).stoppingIteration = stop ∧
    (freshState costFunction stop).currentIteration = 0 ∧
    (freshState costFunction stop).Acopy = [] ∧
    (freshState costFunction stop).mDimension = costFunction.getParSpaceDim ∧
    (freshState costFunction stop).mFunction = costFunction ∧
    (freshState costFunction stop).getAdditionalInformation "checkboundary" = "" ∧
    (freshState costFunction stop).getMetaParameter "alpha" = 1 ∧
    (freshState costFunction stop).getMetaParameter "beta" = 1 / 2 ∧
    (freshState costFunction stop).getMetaParameter "gamma" = 1 ∧
    (freshState costFunction stop).getMetaParameter "tau" = 1 / 2 := by
  refine ⟨rfl, rfl, rfl, rfl, rfl, rfl, ?_, ?_, ?_, ?_⟩ <;>
    simp [freshState, setStepSize, ctor, getMetaParameter, setMetaParameter,
      setAdditionalInformation]

theorem setup_ctor_snd (costFunction : FunctionToBeOptimized) (stop : Int) :
    (setup costFunction (ctor stop)).2 =
      forLoop 0 (costFunction.getParSpaceDim + 1) (fun i (A : verticesVector) =>
        A.set i (checkBoundaryCondition (freshState costFunction stop) (A.getD i default)))
        (initializeVertices (freshState costFunction stop)
          (resize [] (costFunction.getParSpaceDim + 1) default)) := rfl


theorem setup_ctor_vertex0 (costFunction : FunctionToBeOptimized) (stop : Int) :
    (setup costFunction (ctor stop)).2.getD 0 default =
      checkBoundaryCondition (freshState costFunction stop)
        ⟨(List.range costFunction.getParSpaceDim).map
          (fun k => ((freshState costFunction stop).parameter k).getStartingValue), 0⟩ := by
  obtain ⟨-, -, -, hdim, -⟩ := freshState_fields costFunction stop
  have hlen : (resize ([] : verticesVector) (costFunction.getParSpaceDim + 1) default).length =
      (freshState costFunction stop).mDimension + 1 := by
    rw [resize_length, hdim]
  have hd : (resize ([] : verticesVector) (costFunction.getParSpaceDim + 1) default).getD 0
      default = default := by
    rw [List.getD_eq_getElem?_getD, resize_nil_getElem?, if_pos (Nat.succ_pos _)]
    rfl
  rw [setup_ctor_snd, List.getD_eq_getElem?_getD]
  have h := forLoop_set_getElem? (default : vertex)
    (fun _ V => checkBoundaryCondition (freshState costFunction stop) V)
    (costFunction.getParSpaceDim + 1)
    (initializeVertices (freshState costFunction stop)
      (resize [] (costFunction.getParSpaceDim + 1) default)) 0
  simp only [] at h
  rw [h, if_pos (Nat.succ_pos _), initializeVertices_getElem? _ _ hlen 0, if_pos rfl, hd, hdim]
  rfl

theorem setup_ctor_vertex0_getElem? (costFunction : FunctionToBeOptimized) (stop : Int)
    (k : Nat) (hk : k < costFunction.getParSpaceDim) :
    (((setup costFunction (ctor stop)).2.getD 0 default).first)[k]? =
      some (clampCoordinate ((freshState costFunction stop).parameter k).getLeftBoundary
        ((freshState costFunction stop).parameter k).getRightBoundary
        ((freshState costFunction stop).parameter k).getStartingValue) := by
  obtain ⟨-, -, -, hdim, -⟩ := freshState_fields costFunction stop
  rw [setup_ctor_vertex0, checkBoundaryCondition_getElem?, hdim, if_pos hk, List.getElem?_map,
    List.getElem?_range hk]
  rfl

theorem pushResult_optimizationParameter (s : Simplex) (rs : Result) (V : vertex) :
    (pushResult s rs V).optimizationParameter =
      (forLoop 0 s.mDimension (fun iPar (rs : Result) =>
        ({ rs with optimizationParameter := fun k =>
            if k = (s.parameter iPar).getName then some (V.first.getD iPar 0)
            else rs.optimizationParameter k } : Result)) rs).optimizationParameter := rfl

theorem whileLoop_exit (costFunction : FunctionToBeOptimized) (fuel : Nat) (s : Simplex)
    (A : verticesVector) (h : (checkStoppingCondition s).1 = false) :
    whileLoop costFunction (fuel + 1) s A = some (s, A) := by
  unfold checkStoppingCondition at h
  unfold whileLoop checkStoppingCondition
  by_cases h1 : s.currentIteration ≥ s.stoppingIteration
  · rw [if_pos h1]
  · rw [if_neg h1] at h ⊢
    by_cases h2 : s.getAdditionalInformation "checkboundary" ≠ ""
    · rw [if_pos h2]
    · rw [if_neg h2] at h
      exact absurd h (by simp)

/-- C9: for an engine fresh from the constructor with `stoppingIteration = 0`,
`algorithm` returns with the loop left at its first check (the vertex set and
the engine state are those on entry to the loop, `Acopy` is still empty, the
counter is still 0), and the returned parameter values are the clamped
starting values, keyed by parameter name; the returned cost is the value `0.0`
the vertices are created with, no evaluation having taken place. -/
theorem algorithm_zero_budget (costFunction : FunctionToBeOptimized) (fuel : Nat)
    (hpar : costFunction.mParameters.length = costFunction.getParSpaceDim)
    (hnames : (costFunction.mParameters.map (fun p => p.getName)).Nodup) :
    whileLoop costFunction (fuel + 1) (setup costFunction (ctor 0)).1
        (setup costFunction (ctor 0)).2 = some (setup costFunction (ctor 0)) ∧
    ∃ r s, algorithm (fuel + 1) costFunction (ctor 0) = some (r, s) ∧
      s.currentIteration = 0 ∧ s.Acopy = [] ∧
      r.result = 0 ∧
      (∀ (k : Nat) (p : Parameter), costFunction.mParameters[k]? = some p →
        ((setup costFunction (ctor 0)).2.getD 0 default).first[k]? =
          some (clampCoordinate p.getLeftBoundary p.getRightBoundary p.getStartingValue) ∧
        r.optimizationParameter p.getName =
          some (clampCoordinate p.getLeftBoundary p.getRightBoundary p.getStartingValue)) ∧
      (∀ key, key ∉ costFunction.mParameters.map (fun p => p.getName) →
        r.optimizationParameter key = none) := by
  obtain ⟨hstop, hcur, hcopy, hdim, hfun, hflag, -⟩ := freshState_fields costFunction 0
  have hexit : whileLoop costFunction (fuel + 1) (setup costFunction (ctor 0)).1
      (setup costFunction (ctor 0)).2 = some (setup costFunction (ctor 0)) := by
    apply whileLoop_exit
    rw [setup_ctor_fst]
    unfold checkStoppingCondition
    rw [if_pos (by rw [hstop, hcur])]
  refine ⟨hexit, pushResult (freshState costFunction 0) default
      ((setup costFunction (ctor 0)).2.getD 0 default), freshState costFunction 0, ?_, hcur,
      hcopy, ?_, ?_, ?_⟩
  · unfold algorithm
    simp only []
    rw [hexit]
    rfl
  · rw [pushResult_result, setup_ctor_vertex0]
    rfl
  · intro k p hp
    have hk : k < costFunction.getParSpaceDim := by
      have := (List.getElem?_eq_some_iff.mp hp).1
      omega
    have hpk : (freshState costFunction 0).parameter k = p := by
      unfold parameter
      rw [hfun, List.getD_eq_getElem?_getD, hp]
      rfl
    have hv := setup_ctor_vertex0_getElem? costFunction 0 k hk
    rw [hpk] at hv
    refine ⟨hv, ?_⟩
    have hloop := (pushResult_loop (freshState costFunction 0) default
      ((setup costFunction (ctor 0)).2.getD 0 default) (freshState costFunction 0).mDimension
      p.getName).2 k (by rw [hdim]; exact hk) ?_ (by rw [hpk])
    · rw [pushResult_optimizationParameter, hloop, List.getD_eq_getElem?_getD, hv]
      rfl
    · intro j hj hjk
      rw [hdim] at hj
      unfold parameter at hjk
      rw [hfun, List.getD_eq_getElem _ _ (by omega), List.getD_eq_getElem _ _ (by omega)] at hjk
      have h1 := List.nodup_iff_injective_getElem.mp hnames
      have h2 := @h1 ⟨j, by simp; omega⟩ ⟨k, by simp; omega⟩ (by simpa using hjk)
      simpa using h2
  · intro key hkey
    rcases (pushResult_loop (freshState costFunction 0) default
      ((setup costFunction (ctor 0)).2.getD 0 default) (freshState costFunction 0).mDimension
      key).1 with h | ⟨k, hk, hkk⟩
    · rw [pushResult_optimizationParameter, h]
      rfl
    · exfalso
      apply hkey
      rw [hdim] at hk
      unfold parameter at hkk
      rw [hfun, List.getD_eq_getElem _ _ (by omega)] at hkk
      rw [hkk]
      exact List.mem_map.mpr ⟨_, List.getElem_mem _, rfl⟩

/-! ## The decision tree of a cycle -/

theorem cycle_eq (costFunction : FunctionToBeOptimized) (s : Simplex) (A : verticesVector) :
    cycle costFunction s A =
      replaceWorst s (evaluateAndSort costFunction s A)
        (decisionTree s (evaluateAndSort costFunction s A)).Anew := rfl

theorem evaluateAndSort_length (costFunction : FunctionToBeOptimized) (s : Simplex)
    (A : verticesVector) : (evaluateAndSort costFunction s A).length = A.length := by
  unfold evaluateAndSort
  simp only []
  rw [(sort_perm _).length_eq]
  exact forLoop_set_length
    (fun i (A : verticesVector) => ({ A.getD i default with
      second := costFunction.getEvaluation (A.getD i default).first } : vertex))
    (s.mDimension + 1) A

theorem replaceWorst_worst (s : Simplex) (A : verticesVector) (Anew : vertex)
    (hA : A.length = s.mDimension + 1) :
    (replaceWorst s A Anew).2 = A.set s.mDimension (checkBoundaryCondition s Anew) ∧
    (replaceWorst s A Anew).2.getD s.mDimension default = checkBoundaryCondition s Anew := by
  have h : (replaceWorst s A Anew).2 = A.set s.mDimension (checkBoundaryCondition s Anew) := by
    unfold replaceWorst
    simp only []
    rw [getD_set_self A _ _ (by omega), List.set_set]
  exact ⟨h, by rw [h, getD_set_self A _ _ (by omega)]⟩

/-- A cycle writes index `mDimension` only: every other vertex of the sorted set
is carried over unchanged, in every branch, the shrink branch included. -/
theorem cycle_getD_of_ne (costFunction : FunctionToBeOptimized) (s : Simplex)
    (A : verticesVector) (hA : A.length = s.mDimension + 1) (i : Nat) (hi : i ≠ s.mDimension) :
    (cycle costFunction s A).2.getD i default =
      (evaluateAndSort costFunction s A).getD i default := by
  rw [cycle_eq, (replaceWorst_worst s _ _ (by rw [evaluateAndSort_length, hA])).1]
  exact getD_set_ne _ _ _ _ (fun h => hi h.symm)

/-- The first branch of the decision tree: the reflection beats the best vertex. -/
theorem decisionTree_case1 (s : Simplex) (A : verticesVector)
    (h : (getReflectedPoint s (getCentroid s A 1) (A.getD s.mDimension default)).second <
      (A.getD 0 default).second) :
    (decisionTree s A).M = getCentroid s A 1 ∧
    (decisionTree s A).Ar =
      getReflectedPoint s (getCentroid s A 1) (A.getD s.mDimension default) ∧
    (decisionTree s A).Ae = getExtendedPoint s (getCentroid s A 1)
      (getReflectedPoint s (getCentroid s A 1) (A.getD s.mDimension default)) ∧
    (decisionTree s A).Anew =
      (if (decisionTree s A).Ae.second < (A.getD 0 default).second then (decisionTree s A).Ae
       else (decisionTree s A).Ar) := by
  unfold decisionTree
  simp only []
  rw [if_pos h]
  by_cases h2 : (getExtendedPoint s (getCentroid s A 1)
      (getReflectedPoint s (getCentroid s A 1) (A.getD s.mDimension default))).second <
      (A.getD 0 default).second
  · rw [if_pos h2]
    exact ⟨rfl, rfl, rfl, (if_pos h2).symm⟩
  · rw [if_neg h2]
    exact ⟨rfl, rfl, rfl, (if_neg h2).symm⟩


theorem decisionTree_Ar (s : Simplex) (A : verticesVector) :
    (decisionTree s A).Ar =
      getReflectedPoint s (getCentroid s A 1) (A.getD s.mDimension default) := by
  unfold decisionTree
  simp only []
  split_ifs <;> rfl

/-- C2 (amended): in a cycle where the reflected cost is strictly below the best
cost, the worst vertex is replaced by the (clamped) expansion `Ae` when
`cost(Ae) < cost(best)` and by the (clamped) reflection `Ar` otherwise; the
replacement's cost is below the best cost, and it equals
`min(cost(Ar), cost(Ae))` unless `cost(Ar) < cost(Ae) < cost(best)`. -/
theorem cycle_expansion_choice (costFunction : FunctionToBeOptimized) (s : Simplex)
    (A B : verticesVector) (r : CycleLocals)
    (hA : A.length = s.mDimension + 1)
    (hB : B = evaluateAndSort costFunction s A)
    (hr : r = decisionTree s B)
    (hlt : r.Ar.second < (B.getD 0 default).second) :
    r.Ar = getReflectedPoint s (getCentroid s B 1) (B.getD s.mDimension default) ∧
    r.Ae = getExtendedPoint s (getCentroid s B 1) r.Ar ∧
    (cycle costFunction s A).2 = B.set s.mDimension (checkBoundaryCondition s
      (if r.Ae.second < (B.getD 0 default).second then r.Ae else r.Ar)) ∧
    ((cycle costFunction s A).2.getD s.mDimension default).second =
      (if r.Ae.second < (B.getD 0 default).second then r.Ae.second else r.Ar.second) ∧
    ((cycle costFunction s A).2.getD s.mDimension default).second <
      (B.getD 0 default).second ∧
    (¬ (r.Ar.second < r.Ae.second ∧ r.Ae.second < (B.getD 0 default).second) →
      ((cycle costFunction s A).2.getD s.mDimension default).second =
        min r.Ar.second r.Ae.second) := by
  have hBlen : B.length = s.mDimension + 1 := by
    rw [hB, evaluateAndSort_length, hA]
  have hAr := decisionTree_Ar s B
  rw [← hr] at hAr
  rw [hAr] at hlt
  obtain ⟨-, -, hAe, hAnew⟩ := decisionTree_case1 s B hlt
  rw [← hr] at hAe hAnew
  rw [← hAr] at hAe hlt
  have hcyc := replaceWorst_worst s B r.Anew hBlen
  rw [hr, hB, ← cycle_eq, ← hB, ← hr, hAnew] at hcyc
  have hsec : ((cycle costFunction s A).2.getD s.mDimension default).second =
      (if r.Ae.second < (B.getD 0 default).second then r.Ae.second else r.Ar.second) := by
    rw [hcyc.2, checkBoundaryCondition_second]
    split_ifs <;> rfl
  refine ⟨hAr, hAe, hcyc.1, hsec, ?_, ?_⟩
  · rw [hsec]
    split_ifs with h
    · exact h
    · exact hlt
  · intro hn
    rw [hsec]
    by_cases h : r.Ae.second < (B.getD 0 default).second
    · rw [if_pos h]
      have : r.Ae.second ≤ r.Ar.second := not_lt.mp (fun h2 => hn ⟨h2, h⟩)
      exact (min_eq_right this).symm
    · rw [if_neg h]
      have : r.Ar.second ≤ r.Ae.second := le_of_lt (lt_of_lt_of_le hlt (not_lt.mp h))
      exact (min_eq_left this).symm

/-! ## Concrete runs -/

theorem shiftedSquare_setup :
    (setup shiftedSquare (ctor 1)).2 = [⟨[0], 0⟩, ⟨[5], 0⟩] := by
  with_unfolding_all decide

theorem shiftedSquare_sorted :
    evaluateAndSort shiftedSquare (freshState shiftedSquare 1) [⟨[0], 0⟩, ⟨[5], 0⟩] =
      [⟨[0], 49⟩, ⟨[5], 144⟩] := by
  with_unfolding_all decide

theorem shiftedSquare_locals :
    (decisionTree (freshState shiftedSquare 1) [⟨[0], 49⟩, ⟨[5], 144⟩]).Ar = ⟨[-5], 4⟩ ∧
    (decisionTree (freshState shiftedSquare 1) [⟨[0], 49⟩, ⟨[5], 144⟩]).Ae = ⟨[-10], 9⟩ ∧
    (decisionTree (freshState shiftedSquare 1) [⟨[0], 49⟩, ⟨[5], 144⟩]).Anew = ⟨[-10], 9⟩ := by
  with_unfolding_all decide

theorem shiftedSquare_cycle :
    (cycle shiftedSquare (freshState shiftedSquare 1) [⟨[0], 0⟩, ⟨[5], 0⟩]).2 =
      [⟨[0], 49⟩, ⟨[-10], 9⟩] := by
  rw [cycle_eq, shiftedSquare_sorted, shiftedSquare_locals.2.2]
  with_unfolding_all decide

/-- C2, as stated, fails: for `f(x) = (x + 7)^2` with vertices `0` and `5` the
reflection `-5` costs 4 and the expansion `-10` costs 9, both below the best
cost 49, and the worst vertex is replaced by the expansion, of cost 9, not by
the cheaper reflection. -/
theorem expansion_replaces_cheaper_reflection :
    (decisionTree (freshState shiftedSquare 1)
      (evaluateAndSort shiftedSquare (freshState shiftedSquare 1)
        [⟨[0], 0⟩, ⟨[5], 0⟩])).Ar.second <
      ((evaluateAndSort shiftedSquare (freshState shiftedSquare 1)
        [⟨[0], 0⟩, ⟨[5], 0⟩]).getD 0 default).second ∧
    ((cycle shiftedSquare (freshState shiftedSquare 1)
        [⟨[0], 0⟩, ⟨[5], 0⟩]).2.getD 1 default).second ≠
      min (decisionTree (freshState shiftedSquare 1)
            (evaluateAndSort shiftedSquare (freshState shiftedSquare 1)
              [⟨[0], 0⟩, ⟨[5], 0⟩])).Ar.second
          (decisionTree (freshState shiftedSquare 1)
            (evaluateAndSort shiftedSquare (freshState shiftedSquare 1)
              [⟨[0], 0⟩, ⟨[5], 0⟩])).Ae.second := by
  rw [shiftedSquare_cycle, shiftedSquare_sorted, shiftedSquare_locals.1,
    shiftedSquare_locals.2.1]
  with_unfolding_all decide

/-- A concrete instance of `cycle_expansion_choice`: the first cycle of the run
on `f(x) = (x + 7)^2` from the vertices `0` and `5`. -/
theorem cycle_expansion_choice_witness :
    ((cycle shiftedSquare (freshState shiftedSquare 1)
        [⟨[0], 0⟩, ⟨[5], 0⟩]).2.getD (freshState shiftedSquare 1).mDimension default).second <
      ((evaluateAndSort shiftedSquare (freshState shiftedSquare 1)
        [⟨[0], 0⟩, ⟨[5], 0⟩]).getD 0 default).second :=
  (cycle_expansion_choice shiftedSquare (freshState shiftedSquare 1) [⟨[0], 0⟩, ⟨[5], 0⟩]
    _ _ (by rfl) rfl rfl
    (by rw [shiftedSquare_sorted, shiftedSquare_locals.1]; with_unfolding_all decide)).2.2.2.2.1

/-- C3 at a concrete run: `f(x) = (x + 7)^2`, start `0`, bounds `[-10, 10]`, budget
one iteration.  The run returns `x = 0` with cost 49, while the vertex set the
engine holds at return contains the vertex `-10`, whose cost is 9. -/
theorem result_misses_last_replacement :
    ∃ r s, algorithm 2 shiftedSquare (ctor 1) = some (r, s) ∧
      r.result = 49 ∧ r.optimizationParameter "x" = some 0 ∧
      s.Acopy = [⟨[0], 49⟩, ⟨[-10], 9⟩] ∧
      shiftedSquare.evaluate [-10] = 9 ∧
      ∃ v, v ∈ s.Acopy ∧ v.second < r.result := by
  have h : (algorithm 2 shiftedSquare (ctor 1)).map
      (fun p => (p.1.result, p.1.optimizationParameter "x", p.2.Acopy)) =
      some (49, some 0, [⟨[0], 49⟩, ⟨[-10], 9⟩]) := by
    with_unfolding_all decide
  cases hrun : algorithm 2 shiftedSquare (ctor 1) with
  | none => rw [hrun] at h; exact absurd h (by simp)
  | some p =>
    rw [hrun, Option.map_some', Option.some.injEq, Prod.mk.injEq, Prod.mk.injEq] at h
    obtain ⟨h1, h2, h3⟩ := h
    refine ⟨p.1, p.2, rfl, h1, h2, h3, by with_unfolding_all decide, ⟨[-10], 9⟩, ?_, ?_⟩
    · rw [h3]; simp
    · rw [h1]; norm_num

theorem himmelblau_setup :
    (setup himmelblau (ctor 1)).2 = [⟨[-2, -3], 0⟩, ⟨[2, -3], 0⟩, ⟨[-2, 1 / 2], 0⟩] := by
  with_unfolding_all decide

set_option maxRecDepth 2000 in
theorem himmelblau_first_cycle :
    (decisionTree (freshState himmelblau 1)
      (evaluateAndSort himmelblau (freshState himmelblau 1)
        [⟨[-2, -3], 0⟩, ⟨[2, -3], 0⟩, ⟨[-2, 1 / 2], 0⟩])).check = 0 ∧
    (evaluateAndSort himmelblau (freshState himmelblau 1)
        [⟨[-2, -3], 0⟩, ⟨[2, -3], 0⟩, ⟨[-2, 1 / 2], 0⟩]).map (fun v => v.first) =
      [[-2, -3], [2, -3], [-2, 1 / 2]] ∧
    (cycle himmelblau (freshState himmelblau 1)
        [⟨[-2, -3], 0⟩, ⟨[2, -3], 0⟩, ⟨[-2, 1 / 2], 0⟩]).2.map (fun v => v.first) =
      [[-2, -3], [2, -3], [-2, -5 / 4]] := by
  with_unfolding_all decide

/-- C1 at a concrete run: Himmelblau's function, start `(-2, -3)`, bounds
`[-10, 10]`, default coefficients.  The first cycle takes the shrink branch
(`check = 0`) on the sorted simplex `(-2,-3)`, `(2,-3)`, `(-2,1/2)`; the cycle
replaces only the worst vertex, by `(-2,-5/4)`, and leaves vertex 1 at `(2,-3)`,
whereas its own shrunk point `tau*A[0] + (1-tau)*A[1]` is `(0,-3)`. -/
theorem shrink_replaces_only_worst :
    (decisionTree (freshState himmelblau 1)
      (evaluateAndSort himmelblau (freshState himmelblau 1)
        (setup himmelblau (ctor 1)).2)).check = 0 ∧
    (evaluateAndSort himmelblau (freshState himmelblau 1)
        (setup himmelblau (ctor 1)).2).map (fun v => v.first) =
      [[-2, -3], [2, -3], [-2, 1 / 2]] ∧
    (cycle himmelblau (freshState himmelblau 1)
        (setup himmelblau (ctor 1)).2).2.map (fun v => v.first) =
      [[-2, -3], [2, -3], [-2, -5 / 4]] ∧
    (getShrinkedPoint (freshState himmelblau 1) ⟨[2, -3], 116⟩ ⟨[-2, -3], 100⟩).first =
      [0, -3] := by
  rw [himmelblau_setup]
  exact ⟨himmelblau_first_cycle.1, himmelblau_first_cycle.2.1, himmelblau_first_cycle.2.2,
    by with_unfolding_all decide⟩

/-- A concrete instance of `algorithm_zero_budget`: the two-parameter function
`sumOfSquares`. -/
theorem algorithm_zero_budget_witness :
    sumOfSquares.mParameters.length = sumOfSquares.getParSpaceDim ∧
    (sumOfSquares.mParameters.map (fun p => p.getName)).Nodup ∧
    whileLoop sumOfSquares 1 (setup sumOfSquares (ctor 0)).1 (setup sumOfSquares (ctor 0)).2 =
      some (setup sumOfSquares (ctor 0)) :=
  ⟨by rfl, by decide, (algorithm_zero_budget sumOfSquares 0 (by rfl) (by decide)).1⟩

/-- A concrete instance of `initializeVertices_spec`: dimension 2, the step sizes
`(1, 2)` and a vertex set of three value-initialised vertices. -/
theorem initializeVertices_spec_witness :
    (initializeVertices (setStepSizeTo (sumOfSquaresEngine 0) [1, 2])
      (resize [] 3 default)).length =
        (setStepSizeTo (sumOfSquaresEngine 0) [1, 2]).mDimension + 1 ∧
    ((initializeVertices (setStepSizeTo (sumOfSquaresEngine 0) [1, 2])
      (resize [] 3 default)).getD 0 default).first =
        (setStepSizeTo (sumOfSquaresEngine 0) [1, 2]).mFunction.mParameters.map
          (fun p => p.getStartingValue) :=
  ⟨(initializeVertices_spec (setStepSizeTo (sumOfSquaresEngine 0) [1, 2])
      (resize [] 3 default) (by decide) (by rfl) (by rfl) (by rfl)).1,
   (initializeVertices_spec (setStepSizeTo (sumOfSquaresEngine 0) [1, 2])
      (resize [] 3 default) (by decide) (by rfl) (by rfl) (by rfl)).2.1⟩

/-! ## Step sizes -/

theorem setStepSize_of_empty (s : Simplex) (h : s.stepSize = []) :
    (setStepSize s).stepSize = (List.range s.mDimension).map (fun k =>
      min ((s.parameter k).getStartingValue - (s.parameter k).getLeftBoundary)
        ((s.parameter k).getRightBoundary - (s.parameter k).getStartingValue) / 2) := by
  unfold setStepSize
  rw [h, if_pos (by rfl)]
  exact forLoop_fill _ _ _ (resize_length _ _ _)

theorem setStepSize_of_ne_empty (s : Simplex) (h : s.stepSize ≠ []) : setStepSize s = s := by
  unfold setStepSize
  cases hs : s.stepSize with
  | nil => exact absurd hs h
  | cons a l => rfl

/-- C11: the no-argument `setStepSize` computes
`min(start_k - left_k, right_k - start_k) / 2` for every dimension `k` when no
step size has been set, and leaves a non-empty step-size vector supplied through
`setStepSize(vector)` unchanged. -/
theorem setStepSize_spec (s : Simplex) (v : List ℚ) :
    (s.stepSize = [] →
      (setStepSize s).stepSize.length = s.mDimension ∧
      ∀ k, k < s.mDimension → (setStepSize s).stepSize[k]? =
        some (min ((s.parameter k).getStartingValue - (s.parameter k).getLeftBoundary)
          ((s.parameter k).getRightBoundary - (s.parameter k).getStartingValue) / 2)) ∧
    (s.stepSize ≠ [] → setStepSize s = s) ∧
    (v ≠ [] → (setStepSize (setStepSizeTo s v)).stepSize = v) := by
  refine ⟨?_, setStepSize_of_ne_empty s, ?_⟩
  · intro h
    rw [setStepSize_of_empty s h]
    refine ⟨by simp, ?_⟩
    intro k hk
    rw [List.getElem?_map, List.getElem?_range hk]
    rfl
  · intro hv
    rw [setStepSize_of_ne_empty (setStepSizeTo s v) hv]
    rfl

/-! ## Termination of the loop -/

theorem cycle_fst (costFunction : FunctionToBeOptimized) (s : Simplex) (A : verticesVector) :
    (cycle costFunction s A).1 = { s with Acopy := (cycle costFunction s A).2 } := rfl

theorem cycles_zero (costFunction : FunctionToBeOptimized) (s : Simplex) (A : verticesVector) :
    cycles costFunction 0 s A = (s, A) := rfl

theorem cycles_succ (costFunction : FunctionToBeOptimized) (n : Nat) (s : Simplex)
    (A : verticesVector) :
    cycles costFunction (n + 1) s A =
      cycles costFunction n
        (cycle costFunction { s with currentIteration := s.currentIteration + 1 } A).1
        (cycle costFunction { s with currentIteration := s.currentIteration + 1 } A).2 := rfl

/-- The fields of the engine state that the loop body never writes, and the
counter, after `n` passes. -/
theorem cycles_fields (costFunction : FunctionToBeOptimized) (n : Nat) (s : Simplex)
    (A : verticesVector) :
    (cycles costFunction n s A).1.stoppingIteration = s.stoppingIteration ∧
    (cycles costFunction n s A).1.currentIteration = s.currentIteration + n ∧
    (cycles costFunction n s A).1.additionalInformation = s.additionalInformation ∧
    (cycles costFunction n s A).1.metaParameter = s.metaParameter ∧
    (cycles costFunction n s A).1.stepSize = s.stepSize ∧
    (cycles costFunction n s A).1.mDimension = s.mDimension ∧
    (cycles costFunction n s A).1.mFunction = s.mFunction := by
  induction n generalizing s A with
  | zero => simp [cycles_zero]
  | succ n ih =>
    rw [cycles_succ]
    obtain ⟨h1, h2, h3, h4, h5, h6, h7⟩ := ih
      (cycle costFunction { s with currentIteration := s.currentIteration + 1 } A).1
      (cycle costFunction { s with currentIteration := s.currentIteration + 1 } A).2
    rw [h1, h2, h3, h4, h5, h6, h7, cycle_fst]
    refine ⟨rfl, ?_, rfl, rfl, rfl, rfl, rfl⟩
    simp only [Nat.cast_add, Nat.cast_one]
    ring

theorem whileLoop_pass (costFunction : FunctionToBeOptimized) (fuel : Nat) (s : Simplex)
    (A : verticesVector) (h1 : s.currentIteration < s.stoppingIteration)
    (h2 : s.getAdditionalInformation "checkboundary" = "") :
    whileLoop costFunction (fuel + 1) s A =
      whileLoop costFunction fuel
        (cycle costFunction { s with currentIteration := s.currentIteration + 1 } A).1
        (cycle costFunction { s with currentIteration := s.currentIteration + 1 } A).2 := by
  have hc : checkStoppingCondition s =
      (true, { s with currentIteration := s.currentIteration + 1 }) := by
    unfold checkStoppingCondition
    rw [if_neg (not_le.mpr h1), if_neg (by simp [h2])]
  rw [whileLoop, hc]

theorem whileLoop_eq_cycles (costFunction : FunctionToBeOptimized) (n : Nat) :
    ∀ (fuel : Nat) (s : Simplex) (A : verticesVector),
      (s.stoppingIteration - s.currentIteration).toNat = n → n < fuel →
      s.getAdditionalInformation "checkboundary" = "" →
      whileLoop costFunction fuel s A = some (cycles costFunction n s A) := by
  induction n with
  | zero =>
    intro fuel s A hn hfuel _
    obtain ⟨fuel, rfl⟩ : ∃ m, fuel = m + 1 := ⟨fuel - 1, by omega⟩
    apply whileLoop_exit
    unfold checkStoppingCondition
    rw [if_pos (by omega)]
  | succ n ih =>
    intro fuel s A hn hfuel hflag
    obtain ⟨fuel, rfl⟩ : ∃ m, fuel = m + 1 := ⟨fuel - 1, by omega⟩
    rw [whileLoop_pass costFunction fuel s A (by omega) hflag, cycles_succ]
    apply ih
    · rw [cycle_fst]
      show (s.stoppingIteration - (s.currentIteration + 1)).toNat = n
      omega
    · omega
    · rw [cycle_fst]
      exact hflag

theorem setStepSize_fields (s : Simplex) :
    (setStepSize s).stoppingIteration = s.stoppingIteration ∧
    (setStepSize s).currentIteration = s.currentIteration ∧
    (setStepSize s).additionalInformation = s.additionalInformation ∧
    (setStepSize s).metaParameter = s.metaParameter ∧
    (setStepSize s).Acopy = s.Acopy ∧
    (setStepSize s).mDimension = s.mDimension ∧
    (setStepSize s).mFunction = s.mFunction := by
  unfold setStepSize
  split_ifs <;> exact ⟨rfl, rfl, rfl, rfl, rfl, rfl, rfl⟩

theorem setup_fst (costFunction : FunctionToBeOptimized) (s : Simplex) :
    (setup costFunction s).1 =
      setStepSize { s with mFunction := costFunction,
                           mDimension := costFunction.getParSpaceDim } := rfl

theorem setup_fields (costFunction : FunctionToBeOptimized) (s : Simplex) :
    (setup costFunction s).1.stoppingIteration = s.stoppingIteration ∧
    (setup costFunction s).1.currentIteration = s.currentIteration ∧
    (setup costFunction s).1.additionalInformation = s.additionalInformation ∧
    (setup costFunction s).1.metaParameter = s.metaParameter ∧
    (setup costFunction s).1.Acopy = s.Acopy ∧
    (setup costFunction s).1.mDimension = costFunction.getParSpaceDim ∧
    (setup costFunction s).1.mFunction = costFunction := by
  rw [setup_fst]
  exact setStepSize_fields _

theorem algorithm_eq (fuel : Nat) (costFunction : FunctionToBeOptimized) (s : Simplex)
    (t : Simplex) (B : verticesVector)
    (h : whileLoop costFunction fuel (setup costFunction s).1 (setup costFunction s).2 =
      some (t, B)) :
    algorithm fuel costFunction s = some (pushResult t default (B.getD 0 default), t) := by
  unfold algorithm
  simp only []
  rw [h]

/-- C18: if the `checkboundary` flag is empty when `algorithm` starts, then for
every initial counter `c` and budget `b` the loop ends after exactly
`max(0, b - c)` passes through its body, the flag is still empty, and the counter
at return is `max(c, b)`. -/
theorem algorithm_terminates (costFunction : FunctionToBeOptimized) (s : Simplex)
    (fuel : Nat) (hflag : s.getAdditionalInformation "checkboundary" = "")
    (hfuel : (s.stoppingIteration - s.currentIteration).toNat < fuel) :
    whileLoop costFunction fuel (setup costFunction s).1 (setup costFunction s).2 =
      some (cycles costFunction (max 0 (s.stoppingIteration - s.currentIteration)).toNat
        (setup costFunction s).1 (setup costFunction s).2) ∧
    ∃ r t, algorithm fuel costFunction s = some (r, t) ∧
      t = (cycles costFunction (max 0 (s.stoppingIteration - s.currentIteration)).toNat
        (setup costFunction s).1 (setup costFunction s).2).1 ∧
      t.getAdditionalInformation "checkboundary" = "" ∧
      t.currentIteration = max s.currentIteration s.stoppingIteration := by
  obtain ⟨hs1, hs2, hs3, -⟩ := setup_fields costFunction s
  have hn : (max 0 (s.stoppingIteration - s.currentIteration)).toNat =
      (s.stoppingIteration - s.currentIteration).toNat := by
    rcases le_total 0 (s.stoppingIteration - s.currentIteration) with h | h
    · rw [max_eq_right h]
    · rw [max_eq_left h]; omega
  rw [hn]
  have hloop := whileLoop_eq_cycles costFunction
    (s.stoppingIteration - s.currentIteration).toNat fuel (setup costFunction s).1
    (setup costFunction s).2 (by rw [hs1, hs2]) hfuel
    (by unfold getAdditionalInformation; rw [hs3]; exact hflag)
  obtain ⟨hc1, hc2, hc3, -⟩ := cycles_fields costFunction
    (s.stoppingIteration - s.currentIteration).toNat (setup costFunction s).1
    (setup costFunction s).2
  refine ⟨hloop, _, _, algorithm_eq fuel costFunction s _ _ hloop, rfl, ?_, ?_⟩
  · unfold getAdditionalInformation
    rw [hc3, hs3]
    exact hflag
  · rw [hc2, hs2]
    rcases le_total s.currentIteration s.stoppingIteration with h | h
    · rw [max_eq_right h]; omega
    · rw [max_eq_left h]; omega

/-- A concrete instance of `algorithm_terminates`: a fresh engine with budget 3
on `sumOfSquares`, with fuel 4. -/
theorem algorithm_terminates_witness :
    ∃ r t, algorithm 4 sumOfSquares (ctor 3) = some (r, t) ∧
      t = (cycles sumOfSquares (max 0 ((ctor 3).stoppingIteration -
        (ctor 3).currentIteration)).toNat
        (setup sumOfSquares (ctor 3)).1 (setup sumOfSquares (ctor 3)).2).1 ∧
      t.getAdditionalInformation "checkboundary" = "" ∧
      t.currentIteration = max (ctor 3).currentIteration (ctor 3).stoppingIteration :=
  (algorithm_terminates sumOfSquares (ctor 3) 4 (by rfl) (by decide)).2

/-! ## Shape and bounds of the vertex set -/

theorem evaluateAndSort_eq (costFunction : FunctionToBeOptimized) (s : Simplex)
    (A : verticesVector) :
    evaluateAndSort costFunction s A = sort (evaluateVertices costFunction s A) := rfl

theorem evaluateVertices_eq_map (costFunction : FunctionToBeOptimized) (s : Simplex)
    (A : verticesVector) (hA : A.length ≤ s.mDimension + 1) :
    evaluateVertices costFunction s A =
      A.map (fun v => { v with second := costFunction.getEvaluation v.first }) :=
  forLoop_set_eq_map default
    (fun v : vertex => ({ v with second := costFunction.getEvaluation v.first } : vertex))
    (s.mDimension + 1) A hA

theorem getExtendedPoint_first (s : Simplex) (M Ar : vertex) :
    (getExtendedPoint s M Ar).first = (List.range s.mDimension).map (fun k =>
      Ar.first.getD k 0 + s.getMetaParameter "gamma" * (Ar.first.getD k 0 - M.first.getD k 0)) := by
  unfold getExtendedPoint
  simp only []
  rw [forLoop_first (fun iPar _ => Ar.first.getD iPar 0 +
    s.getMetaParameter "gamma" * (Ar.first.getD iPar 0 - M.first.getD iPar 0))]
  exact forLoop_fresh _ _

theorem getContractedPoint_first (s : Simplex) (M Ajp : vertex) :
    (getContractedPoint s M Ajp).first = (List.range s.mDimension).map (fun k =>
      M.first.getD k 0 + s.getMetaParameter "beta" * (Ajp.first.getD k 0 - M.first.getD k 0)) := by
  unfold getContractedPoint
  simp only []
  rw [forLoop_first (fun iPar _ => M.first.getD iPar 0 +
    s.getMetaParameter "beta" * (Ajp.first.getD iPar 0 - M.first.getD iPar 0))]
  exact forLoop_fresh _ _

theorem getShrinkedPoint_first (s : Simplex) (Ap A0 : vertex) :
    (getShrinkedPoint s Ap A0).first = (List.range s.mDimension).map (fun k =>
      s.getMetaParameter "tau" * A0.first.getD k 0 +
        (1 - s.getMetaParameter "tau") * Ap.first.getD k 0) := by
  unfold getShrinkedPoint
  simp only []
  rw [forLoop_first (fun iPar _ => s.getMetaParameter "tau" * A0.first.getD iPar 0 +
        (1 - s.getMetaParameter "tau") * Ap.first.getD iPar 0)]
  exact forLoop_fresh _ _

theorem forLoop_const {σ : Type} (n : Nat) (hn : 1 ≤ n) (x init : σ) :
    forLoop 1 (n + 1) (fun _ _ => x) init = x := by
  rw [forLoop_succ 1 n hn]

/-- The second branch of the decision tree: the reflection does not beat the best
vertex but beats the second-worst one. -/
theorem decisionTree_case2 (s : Simplex) (A : verticesVector) (M Ar : vertex)
    (hM : M = getCentroid s A 1) (hAr : Ar = getReflectedPoint s M (A.getD s.mDimension default))
    (h1 : ¬ Ar.second < (A.getD 0 default).second)
    (h2 : Ar.second < (A.getD (s.mDimension - 1) default).second) :
    (decisionTree s A).check = 3 ∧ (decisionTree s A).Anew = Ar := by
  subst hM; subst hAr
  unfold decisionTree
  simp only []
  rw [if_neg h1, if_pos h2]
  exact ⟨rfl, rfl⟩

/-- The third branch of the decision tree: the reflection beats neither the best
nor the second-worst vertex. -/
theorem decisionTree_case3 (s : Simplex) (A : verticesVector) (M Ar Ap Ac : vertex)
    (hM : M = getCentroid s A 1) (hAr : Ar = getReflectedPoint s M (A.getD s.mDimension default))
    (hAp : Ap = if Ar.second < (A.getD s.mDimension default).second then Ar
      else A.getD s.mDimension default)
    (hAc : Ac = getContractedPoint s M Ap)
    (h1 : ¬ Ar.second < (A.getD 0 default).second)
    (h2 : ¬ Ar.second < (A.getD (s.mDimension - 1) default).second) :
    (decisionTree s A).M = M ∧ (decisionTree s A).Ap = Ap ∧ (decisionTree s A).Ac = Ac ∧
    (Ac.second < (A.getD s.mDimension default).second →
      (decisionTree s A).check = 4 ∧ (decisionTree s A).Anew = Ac) ∧
    (¬ Ac.second < (A.getD s.mDimension default).second →
      (decisionTree s A).check = 0 ∧
      (decisionTree s A).Anew = forLoop 1 (s.mDimension + 1)
        (fun _ _ => getShrinkedPoint s Ap (A.getD 0 default)) default) := by
  subst hM; subst hAr; subst hAp; subst hAc
  unfold decisionTree
  simp only []
  rw [if_neg h1, if_neg h2]
  by_cases h3 : (getContractedPoint s (getCentroid s A 1)
      (if (getReflectedPoint s (getCentroid s A 1) (A.getD s.mDimension default)).second <
          (A.getD s.mDimension default).second
        then getReflectedPoint s (getCentroid s A 1) (A.getD s.mDimension default)
        else A.getD s.mDimension default)).second < (A.getD s.mDimension default).second
  · rw [if_pos h3]
    exact ⟨rfl, rfl, rfl, fun _ => ⟨rfl, rfl⟩, fun h => absurd h3 h⟩
  · rw [if_neg h3]
    exact ⟨rfl, rfl, rfl, fun h => absurd h h3, fun _ => ⟨rfl, rfl⟩⟩

/-- The replacement vertex of a cycle is one of the four computed points. -/
theorem decisionTree_Anew_cases (s : Simplex) (A : verticesVector) (hN : 1 ≤ s.mDimension) :
    (∃ M Ar, (decisionTree s A).Anew = getExtendedPoint s M Ar) ∨
    (∃ M Aj, (decisionTree s A).Anew = getReflectedPoint s M Aj) ∨
    (∃ M Ap, (decisionTree s A).Anew = getContractedPoint s M Ap) ∨
    (∃ Ap A0, (decisionTree s A).Anew = getShrinkedPoint s Ap A0) := by
  by_cases h1 : (getReflectedPoint s (getCentroid s A 1) (A.getD s.mDimension default)).second <
      (A.getD 0 default).second
  · obtain ⟨-, hAr, hAe, hAnew⟩ := decisionTree_case1 s A h1
    rw [hAnew]
    split_ifs
    · exact Or.inl ⟨_, _, hAe⟩
    · exact Or.inr (Or.inl ⟨_, _, hAr⟩)
  · by_cases h2 : (getReflectedPoint s (getCentroid s A 1)
        (A.getD s.mDimension default)).second < (A.getD (s.mDimension - 1) default).second
    · exact Or.inr (Or.inl ⟨_, _, (decisionTree_case2 s A _ _ rfl rfl h1 h2).2⟩)
    · obtain ⟨-, -, -, h4, h0⟩ := decisionTree_case3 s A _ _ _ _ rfl rfl rfl rfl h1 h2
      by_cases h3 : (getContractedPoint s (getCentroid s A 1)
          (if (getReflectedPoint s (getCentroid s A 1) (A.getD s.mDimension default)).second <
              (A.getD s.mDimension default).second
            then getReflectedPoint s (getCentroid s A 1) (A.getD s.mDimension default)
            else A.getD s.mDimension default)).second < (A.getD s.mDimension default).second
      · exact Or.inr (Or.inr (Or.inl ⟨_, _, (h4 h3).2⟩))
      · have h5 := (h0 h3).2
        rw [forLoop_const _ hN] at h5
        exact Or.inr (Or.inr (Or.inr ⟨_, _, h5⟩))

theorem decisionTree_Anew_length (s : Simplex) (A : verticesVector) (hN : 1 ≤ s.mDimension) :
    (decisionTree s A).Anew.first.length = s.mDimension := by
  rcases decisionTree_Anew_cases s A hN with ⟨M, Ar, h⟩ | ⟨M, Aj, h⟩ | ⟨M, Ap, h⟩ | ⟨Ap, A0, h⟩
  · rw [h, getExtendedPoint_first]; simp
  · rw [h, getReflectedPoint_first]; simp
  · rw [h, getContractedPoint_first]; simp
  · rw [h, getShrinkedPoint_first]; simp

theorem checkBoundaryCondition_length (s : Simplex) (V : vertex) :
    (checkBoundaryCondition s V).first.length = V.first.length := by
  unfold checkBoundaryCondition
  exact forLoop_set_length
    (fun i (v : List ℚ) => clampCoordinate (s.parameter i).getLeftBoundary
      (s.parameter i).getRightBoundary (v.getD i 0)) s.mDimension V.first

/-- C15: in a cycle where the reflected cost is below neither the best cost nor the
second-worst cost, the contraction point is `M + beta * (Ap - M)`, where `Ap` is the
reflection `Ar` if `cost(Ar) < cost(worst)` and the worst vertex otherwise; the
contraction replaces the worst vertex (`check = 4`) exactly when
`cost(Ac) < cost(worst)`, and otherwise no replacement is set (`check = 0`, the
shrink branch). -/
theorem cycle_contraction (costFunction : FunctionToBeOptimized) (s : Simplex)
    (A B : verticesVector) (M Ar Ap Ac : vertex)
    (hA : A.length = s.mDimension + 1)
    (hB : B = evaluateAndSort costFunction s A)
    (hM : M = getCentroid s B 1)
    (hAr : Ar = getReflectedPoint s M (B.getD s.mDimension default))
    (hAp : Ap = if Ar.second < (B.getD s.mDimension default).second then Ar
      else B.getD s.mDimension default)
    (hAc : Ac = getContractedPoint s M Ap)
    (h1 : ¬ Ar.second < (B.getD 0 default).second)
    (h2 : ¬ Ar.second < (B.getD (s.mDimension - 1) default).second) :
    (decisionTree s B).Ap = Ap ∧ (decisionTree s B).Ac = Ac ∧
    Ac.first.length = s.mDimension ∧
    (∀ (k : Nat) (m p : ℚ), k < s.mDimension → M.first[k]? = some m → Ap.first[k]? = some p →
      Ac.first[k]? = some (m + s.getMetaParameter "beta" * (p - m))) ∧
    Ac.second = s.mFunction.evaluate Ac.first ∧
    ((decisionTree s B).check = 4 ↔ Ac.second < (B.getD s.mDimension default).second) ∧
    ((decisionTree s B).check = 0 ↔ ¬ Ac.second < (B.getD s.mDimension default).second) ∧
    (Ac.second < (B.getD s.mDimension default).second →
      (decisionTree s B).Anew = Ac ∧
      (cycle costFunction s A).2 = B.set s.mDimension (checkBoundaryCondition s Ac)) := by
  have hBlen : B.length = s.mDimension + 1 := by rw [hB, evaluateAndSort_length, hA]
  obtain ⟨-, hp, hc, h4, h0⟩ := decisionTree_case3 s B M Ar Ap Ac hM hAr hAp hAc h1 h2
  refine ⟨hp, hc, ?_, ?_, ?_, ?_, ?_, ?_⟩
  · rw [hAc, getContractedPoint_first]; simp
  · intro k m p hk hm hpk
    rw [hAc, getContractedPoint_first, List.getElem?_map, List.getElem?_range hk]
    show some (M.first.getD k 0 +
      s.getMetaParameter "beta" * (Ap.first.getD k 0 - M.first.getD k 0)) = _
    rw [List.getD_eq_getElem?_getD, List.getD_eq_getElem?_getD, hm, hpk]
    rfl
  · rw [hAc]; rfl
  · constructor
    · intro h
      by_contra hn
      rw [(h0 hn).1] at h
      exact absurd h (by decide)
    · intro h
      exact (h4 h).1
  · constructor
    · intro h hlt
      rw [(h4 hlt).1] at h
      exact absurd h (by decide)
    · intro h
      exact (h0 h).1
  · intro hlt
    refine ⟨(h4 hlt).2, ?_⟩
    rw [cycle_eq, ← hB, (h4 hlt).2]
    exact (replaceWorst_worst s B Ac hBlen).1

/-- A concrete instance of `cycle_contraction`: `f(x) = (x + 7)^2` on the vertices
`-7` and `-3`; the reflection `-11` costs 16, the contraction `-5` costs 4. -/
theorem cycle_contraction_witness :
    (decisionTree (freshState shiftedSquare 1) [⟨[-7], 0⟩, ⟨[-3], 16⟩]).Ac = ⟨[-5], 4⟩ ∧
    ((decisionTree (freshState shiftedSquare 1) [⟨[-7], 0⟩, ⟨[-3], 16⟩]).check = 4 ↔
      (⟨[-5], 4⟩ : vertex).second <
        (([⟨[-7], 0⟩, ⟨[-3], 16⟩] : verticesVector).getD
          (freshState shiftedSquare 1).mDimension default).second) :=
  ⟨(cycle_contraction shiftedSquare (freshState shiftedSquare 1)
      [⟨[-7], 0⟩, ⟨[-3], 0⟩] [⟨[-7], 0⟩, ⟨[-3], 16⟩] ⟨[-7], 0⟩ ⟨[-11], 16⟩ ⟨[-3], 16⟩ ⟨[-5], 4⟩
      (by rfl) (by with_unfolding_all decide) (by with_unfolding_all decide)
      (by with_unfolding_all decide) (by with_unfolding_all decide)
      (by with_unfolding_all decide) (by with_unfolding_all decide)
      (by with_unfolding_all decide)).2.1,
   (cycle_contraction shiftedSquare (freshState shiftedSquare 1)
      [⟨[-7], 0⟩, ⟨[-3], 0⟩] [⟨[-7], 0⟩, ⟨[-3], 16⟩] ⟨[-7], 0⟩ ⟨[-11], 16⟩ ⟨[-3], 16⟩ ⟨[-5], 4⟩
      (by rfl) (by with_unfolding_all decide) (by with_unfolding_all decide)
      (by with_unfolding_all decide) (by with_unfolding_all decide)
      (by with_unfolding_all decide) (by with_unfolding_all decide)
      (by with_unfolding_all decide)).2.2.2.2.2.1⟩

theorem wellShaped_set (n i : Nat) (A : verticesVector) (V : vertex)
    (hA : wellShaped n A) (hV : V.first.length = n) : wellShaped n (A.set i V) := by
  refine ⟨by rw [List.length_set]; exact hA.1, ?_⟩
  intro v hv
  rcases List.mem_or_eq_of_mem_set hv with h | h
  · exact hA.2 v h
  · rw [h]; exact hV

theorem wellShaped_of_perm (n : Nat) (A B : verticesVector) (h : B.Perm A)
    (hA : wellShaped n A) : wellShaped n B :=
  ⟨by rw [h.length_eq]; exact hA.1, fun v hv => hA.2 v (h.mem_iff.mp hv)⟩

theorem wellShaped_map (n : Nat) (A : verticesVector) (g : vertex → vertex)
    (hg : ∀ v, (g v).first.length = v.first.length) (hA : wellShaped n A) :
    wellShaped n (A.map g) := by
  refine ⟨by rw [List.length_map]; exact hA.1, ?_⟩
  intro v hv
  obtain ⟨u, hu, rfl⟩ := List.mem_map.mp hv
  rw [hg u]
  exact hA.2 u hu

/-- Each step of a cycle keeps the shape of the vertex set. -/
theorem cycle_wellShaped (costFunction : FunctionToBeOptimized) (s : Simplex)
    (A : verticesVector) (hN : 1 ≤ s.mDimension) (hA : wellShaped s.mDimension A) :
    wellShaped s.mDimension (evaluateVertices costFunction s A) ∧
    wellShaped s.mDimension (evaluateAndSort costFunction s A) ∧
    wellShaped s.mDimension ((evaluateAndSort costFunction s A).set s.mDimension
      (decisionTree s (evaluateAndSort costFunction s A)).Anew) ∧
    wellShaped s.mDimension (cycle costFunction s A).2 := by
  have h1 : wellShaped s.mDimension (evaluateVertices costFunction s A) := by
    rw [evaluateVertices_eq_map costFunction s A (le_of_eq hA.1)]
    exact wellShaped_map _ _ _ (fun _ => rfl) hA
  have h2 : wellShaped s.mDimension (evaluateAndSort costFunction s A) := by
    rw [evaluateAndSort_eq]
    exact wellShaped_of_perm _ _ _ (sort_perm _) h1
  refine ⟨h1, h2, wellShaped_set _ _ _ _ h2 (decisionTree_Anew_length s _ hN), ?_⟩
  rw [cycle_eq, (replaceWorst_worst s _ _ h2.1).1]
  refine wellShaped_set _ _ _ _ h2 ?_
  rw [checkBoundaryCondition_length]
  exact decisionTree_Anew_length s _ hN

theorem cycles_wellShaped (costFunction : FunctionToBeOptimized) (n : Nat) :
    ∀ (s : Simplex) (A : verticesVector), 1 ≤ s.mDimension → wellShaped s.mDimension A →
      wellShaped s.mDimension (cycles costFunction n s A).2 := by
  induction n with
  | zero => intro s A _ hA; exact hA
  | succ n ih =>
    intro s A hN hA
    rw [cycles_succ]
    exact ih _ _ hN
      (cycle_wellShaped costFunction { s with currentIteration := s.currentIteration + 1 } A
        hN hA).2.2.2

theorem initializeVertices_wellShaped (s : Simplex) (A : verticesVector)
    (hA : A.length = s.mDimension + 1) : wellShaped s.mDimension (initializeVertices s A) := by
  have hl : ∀ j : Nat, (initializeVertices s A)[j]? = none ↔ A[j]? = none := by
    intro j
    rw [initializeVertices_getElem? s A hA j]
    by_cases hj : j = 0
    · subst hj
      rw [if_pos rfl, List.getElem?_eq_getElem (by omega)]
      simp
    · rw [if_neg hj]
      by_cases hjN : j < s.mDimension + 1
      · rw [if_pos hjN]; simp
      · rw [if_neg hjN]
  constructor
  · have h1 := hl (s.mDimension + 1)
    have h2 := hl s.mDimension
    rw [List.getElem?_eq_none_iff, List.getElem?_eq_none_iff] at h1 h2
    omega
  · intro v hv
    obtain ⟨j, hj⟩ := List.mem_iff_getElem?.mp hv
    rw [initializeVertices_getElem? s A hA j] at hj
    by_cases hj0 : j = 0
    · rw [if_pos hj0] at hj
      rw [← Option.some.inj hj]
      simp
    · rw [if_neg hj0] at hj
      by_cases hjN : j < s.mDimension + 1
      · rw [if_pos hjN, List.getElem?_eq_getElem (by omega)] at hj
        rw [← Option.some.inj hj]
        simp
      · rw [if_neg hjN, List.getElem?_eq_none (by omega)] at hj
        exact absurd hj (by simp)

theorem setup_snd (costFunction : FunctionToBeOptimized) (s : Simplex) :
    (setup costFunction s).2 =
      forLoop 0 ((setup costFunction s).1.mDimension + 1) (fun i (A : verticesVector) =>
        A.set i (checkBoundaryCondition (setup costFunction s).1 (A.getD i default)))
        (if (setup costFunction s).1.Acopy.isEmpty then
          initializeVertices (setup costFunction s).1
            (resize [] ((setup costFunction s).1.mDimension + 1) default)
         else (setup costFunction s).1.Acopy) := rfl

/-- The vertex set on entry to the loop: the initial (or cached) vertices, each
passed through `checkBoundaryCondition`. -/
theorem setup_snd_eq_map (costFunction : FunctionToBeOptimized) (s : Simplex)
    (h : s.Acopy = [] ∨ s.Acopy.length = costFunction.getParSpaceDim + 1) :
    (setup costFunction s).2 =
      (if s.Acopy = [] then
          initializeVertices (setup costFunction s).1
            (resize [] (costFunction.getParSpaceDim + 1) default)
        else s.Acopy).map (checkBoundaryCondition (setup costFunction s).1) := by
  obtain ⟨-, -, -, -, hcopy, hdim, -⟩ := setup_fields costFunction s
  rw [setup_snd, hcopy, hdim]
  have hlen : (if s.Acopy.isEmpty then
          initializeVertices (setup costFunction s).1
            (resize [] (costFunction.getParSpaceDim + 1) default)
         else s.Acopy).length ≤ costFunction.getParSpaceDim + 1 := by
    by_cases he : s.Acopy = []
    · rw [he]
      simp only [List.isEmpty_nil, if_true]
      have := (initializeVertices_wellShaped (setup costFunction s).1
        (resize [] (costFunction.getParSpaceDim + 1) default)
        (by rw [resize_length, hdim])).1
      rw [hdim] at this
      omega
    · have hl : s.Acopy.length = costFunction.getParSpaceDim + 1 := by
        rcases h with h | h
        · exact absurd h he
        · exact h
      have : s.Acopy.isEmpty = false := by
        cases hs : s.Acopy with
        | nil => exact absurd hs he
        | cons a l => rfl
      rw [this]
      simp only [Bool.false_eq_true, if_false]
      omega
  rw [forLoop_set_eq_map default (checkBoundaryCondition (setup costFunction s).1) _ _ hlen]
  congr 1
  by_cases he : s.Acopy = []
  · rw [he]; rfl
  · have : s.Acopy.isEmpty = false := by
      cases hs : s.Acopy with
      | nil => exact absurd hs he
      | cons a l => rfl
    rw [this, if_neg he]
    rfl

/-- Whenever the loop returns, it has run its body some number of times. -/
theorem whileLoop_some_cycles (costFunction : FunctionToBeOptimized) (fuel : Nat) :
    ∀ (s t : Simplex) (A B : verticesVector),
      whileLoop costFunction fuel s A = some (t, B) →
      ∃ n, cycles costFunction n s A = (t, B) := by
  induction fuel with
  | zero => intro s t A B h; exact absurd h (by simp [whileLoop])
  | succ fuel ih =>
    intro s t A B h
    by_cases hc : (checkStoppingCondition s).1 = false
    · rw [whileLoop_exit costFunction fuel s A hc] at h
      exact ⟨0, (Option.some.inj h)⟩
    · have h1 : s.currentIteration < s.stoppingIteration := by
        by_contra hn
        apply hc
        unfold checkStoppingCondition
        rw [if_pos (not_lt.mp hn)]
      have h2 : s.getAdditionalInformation "checkboundary" = "" := by
        by_contra hn
        apply hc
        unfold checkStoppingCondition
        rw [if_neg (not_le.mpr h1), if_pos hn]
      rw [whileLoop_pass costFunction fuel s A h1 h2] at h
      obtain ⟨n, hn⟩ := ih _ _ _ _ h
      exact ⟨n + 1, by rw [cycles_succ]; exact hn⟩

/-- C17: for a fresh run in dimension `N ≥ 1` the working vertex set has exactly
`N + 1` vertices, each with a parameter vector of length `N`, on entry to the
loop, after any number of cycles, at return, and after each step (evaluate, sort,
replacement, clamp) of a cycle started from a vertex set of that shape. -/
theorem vertex_set_shape (costFunction : FunctionToBeOptimized) (s : Simplex)
    (hN : 1 ≤ costFunction.getParSpaceDim) (hfresh : s.Acopy = []) :
    wellShaped costFunction.getParSpaceDim (setup costFunction s).2 ∧
    (∀ n, wellShaped costFunction.getParSpaceDim
      (cycles costFunction n (setup costFunction s).1 (setup costFunction s).2).2) ∧
    (∀ fuel t B,
      whileLoop costFunction fuel (setup costFunction s).1 (setup costFunction s).2 =
        some (t, B) → wellShaped costFunction.getParSpaceDim B) ∧
    (∀ (t : Simplex) (A : verticesVector), t.mDimension = costFunction.getParSpaceDim →
      wellShaped costFunction.getParSpaceDim A →
      wellShaped costFunction.getParSpaceDim (evaluateVertices costFunction t A) ∧
      wellShaped costFunction.getParSpaceDim (evaluateAndSort costFunction t A) ∧
      wellShaped costFunction.getParSpaceDim
        ((evaluateAndSort costFunction t A).set t.mDimension
          (decisionTree t (evaluateAndSort costFunction t A)).Anew) ∧
      wellShaped costFunction.getParSpaceDim (cycle costFunction t A).2) := by
  obtain ⟨-, -, -, -, -, hdim, -⟩ := setup_fields costFunction s
  have h0 : wellShaped costFunction.getParSpaceDim (setup costFunction s).2 := by
    rw [setup_snd_eq_map costFunction s (Or.inl hfresh), if_pos hfresh]
    refine wellShaped_map _ _ _ (checkBoundaryCondition_length _) ?_
    have := initializeVertices_wellShaped (setup costFunction s).1
      (resize [] (costFunction.getParSpaceDim + 1) default) (by rw [resize_length, hdim])
    rw [hdim] at this
    exact this
  have hcyc : ∀ n, wellShaped costFunction.getParSpaceDim
      (cycles costFunction n (setup costFunction s).1 (setup costFunction s).2).2 := by
    intro n
    have := cycles_wellShaped costFunction n (setup costFunction s).1 (setup costFunction s).2
      (by rw [hdim]; exact hN) (by rw [hdim]; exact h0)
    rw [hdim] at this
    exact this
  refine ⟨h0, hcyc, ?_, ?_⟩
  · intro fuel t B h
    obtain ⟨n, hn⟩ := whileLoop_some_cycles costFunction fuel _ _ _ _ h
    have := hcyc n
    rw [hn] at this
    exact this
  · intro t A ht hA
    rw [← ht] at hA hN ⊢
    exact cycle_wellShaped costFunction t A hN hA

/-- A concrete instance of `vertex_set_shape`: a fresh engine on `sumOfSquares`. -/
theorem vertex_set_shape_witness :
    1 ≤ sumOfSquares.getParSpaceDim ∧ (ctor 50).Acopy = [] ∧
    wellShaped sumOfSquares.getParSpaceDim (setup sumOfSquares (ctor 50)).2 :=
  ⟨by decide, rfl, (vertex_set_shape sumOfSquares (ctor 50) (by decide) rfl).1⟩

theorem checkBoundaryCondition_inBounds (s : Simplex) (V : vertex)
    (hb : ∀ k, k < s.mDimension →
      (s.parameter k).getLeftBoundary ≤ (s.parameter k).getRightBoundary)
    (k : Nat) (x : ℚ) (hk : k < s.mDimension)
    (hx : (checkBoundaryCondition s V).first[k]? = some x) :
    (s.parameter k).getLeftBoundary ≤ x ∧ x ≤ (s.parameter k).getRightBoundary := by
  rw [checkBoundaryCondition_getElem?, if_pos hk] at hx
  cases hv : V.first[k]? with
  | none => rw [hv] at hx; exact absurd hx (by simp)
  | some y =>
    rw [hv, Option.map_some'] at hx
    rw [← Option.some.inj hx]
    exact clampCoordinate_mem (hb k hk) y

theorem inBounds_set (s : Simplex) (A : verticesVector) (i : Nat) (V : vertex)
    (hA : inBounds s A)
    (hV : ∀ (k : Nat) (x : ℚ), k < s.mDimension → V.first[k]? = some x →
      (s.parameter k).getLeftBoundary ≤ x ∧ x ≤ (s.parameter k).getRightBoundary) :
    inBounds s (A.set i V) := by
  intro v hv
  rcases List.mem_or_eq_of_mem_set hv with h | h
  · exact hA v h
  · rw [h]; exact hV

theorem inBounds_of_firsts (s : Simplex) (A B : verticesVector)
    (h : ∀ v, v ∈ B → ∃ u, u ∈ A ∧ v.first = u.first) (hA : inBounds s A) : inBounds s B := by
  intro v hv k x hk hx
  obtain ⟨u, hu, huv⟩ := h v hv
  rw [huv] at hx
  exact hA u hu k x hk hx

theorem cycle_length (costFunction : FunctionToBeOptimized) (s : Simplex)
    (A : verticesVector) (hA : A.length = s.mDimension + 1) :
    (cycle costFunction s A).2.length = s.mDimension + 1 := by
  rw [cycle_eq, (replaceWorst_worst s _ _ (by rw [evaluateAndSort_length, hA])).1,
    List.length_set, evaluateAndSort_length, hA]

theorem cycle_inBounds (costFunction : FunctionToBeOptimized) (s : Simplex)
    (A : verticesVector)
    (hb : ∀ k, k < s.mDimension →
      (s.parameter k).getLeftBoundary ≤ (s.parameter k).getRightBoundary)
    (hA : A.length = s.mDimension + 1) (hin : inBounds s A) :
    inBounds s (cycle costFunction s A).2 := by
  have h2 : inBounds s (evaluateAndSort costFunction s A) := by
    refine inBounds_of_firsts s A _ ?_ hin
    intro v hv
    rw [evaluateAndSort_eq] at hv
    have hv2 := (sort_perm _).mem_iff.mp hv
    rw [evaluateVertices_eq_map costFunction s A (le_of_eq hA)] at hv2
    obtain ⟨u, hu, rfl⟩ := List.mem_map.mp hv2
    exact ⟨u, hu, rfl⟩
  rw [cycle_eq, (replaceWorst_worst s _ _ (by rw [evaluateAndSort_length, hA])).1]
  exact inBounds_set s _ _ _ h2 (checkBoundaryCondition_inBounds s _ hb)

theorem cycles_inBounds (costFunction : FunctionToBeOptimized) (n : Nat) :
    ∀ (s : Simplex) (A : verticesVector),
      (∀ k, k < s.mDimension →
        (s.parameter k).getLeftBoundary ≤ (s.parameter k).getRightBoundary) →
      A.length = s.mDimension + 1 → inBounds s A →
      inBounds s (cycles costFunction n s A).2 := by
  induction n with
  | zero => intro s A _ _ hin; exact hin
  | succ n ih =>
    intro s A hb hA hin
    rw [cycles_succ]
    exact ih (cycle costFunction { s with currentIteration := s.currentIteration + 1 } A).1
      (cycle costFunction { s with currentIteration := s.currentIteration + 1 } A).2 hb
      (cycle_length costFunction { s with currentIteration := s.currentIteration + 1 } A hA)
      (cycle_inBounds costFunction { s with currentIteration := s.currentIteration + 1 } A
        hb hA hin)

theorem cycles_Acopy (costFunction : FunctionToBeOptimized) (n : Nat) :
    ∀ (s : Simplex) (A : verticesVector), s.Acopy = A ∨ 1 ≤ n →
      (cycles costFunction n s A).1.Acopy = (cycles costFunction n s A).2 := by
  induction n with
  | zero =>
    intro s A h
    rcases h with h | h
    · exact h
    · exact absurd h (by decide)
  | succ n ih =>
    intro s A _
    rw [cycles_succ]
    exact ih _ _ (Or.inl rfl)

/-- C16 (amended): when `left_k ≤ right_k` in every dimension and the run is fresh
or starts from a cached set of `N + 1` vertices, every coordinate `k` of every
vertex of the working vertex set lies in `[left_k, right_k]` after the pre-loop
clamp, after any number of cycles and at return; after the end of every cycle the
cached copy `Acopy` is the working vertex set, hence within bounds as well, while
after the pre-loop clamp alone `Acopy` is still the copy the run started with
(empty for a fresh run). -/
theorem vertex_set_inBounds (costFunction : FunctionToBeOptimized) (s : Simplex)
    (hb : ∀ k, k < costFunction.getParSpaceDim →
      (costFunction.mParameters.getD k default).getLeftBoundary ≤
        (costFunction.mParameters.getD k default).getRightBoundary)
    (hcopy : s.Acopy = [] ∨ s.Acopy.length = costFunction.getParSpaceDim + 1) :
    inBounds (setup costFunction s).1 (setup costFunction s).2 ∧
    (setup costFunction s).1.Acopy = s.Acopy ∧
    (∀ n, inBounds (setup costFunction s).1
        (cycles costFunction n (setup costFunction s).1 (setup costFunction s).2).2 ∧
      (1 ≤ n →
        (cycles costFunction n (setup costFunction s).1 (setup costFunction s).2).1.Acopy =
          (cycles costFunction n (setup costFunction s).1 (setup costFunction s).2).2)) ∧
    (∀ fuel t B,
      whileLoop costFunction fuel (setup costFunction s).1 (setup costFunction s).2 =
        some (t, B) → inBounds (setup costFunction s).1 B) := by
  obtain ⟨-, -, -, -, hAcopy, hdim, hfun⟩ := setup_fields costFunction s
  have hb2 : ∀ k, k < (setup costFunction s).1.mDimension →
      ((setup costFunction s).1.parameter k).getLeftBoundary ≤
        ((setup costFunction s).1.parameter k).getRightBoundary := by
    intro k hk
    unfold parameter
    rw [hfun]
    exact hb k (by rw [← hdim]; exact hk)
  have h0 : inBounds (setup costFunction s).1 (setup costFunction s).2 := by
    rw [setup_snd_eq_map costFunction s hcopy]
    intro v hv
    obtain ⟨u, -, rfl⟩ := List.mem_map.mp hv
    exact checkBoundaryCondition_inBounds _ u hb2
  have hlen : (setup costFunction s).2.length = (setup costFunction s).1.mDimension + 1 := by
    rw [setup_snd_eq_map costFunction s hcopy, List.length_map, hdim]
    by_cases he : s.Acopy = []
    · rw [if_pos he]
      have := (initializeVertices_wellShaped (setup costFunction s).1
        (resize [] (costFunction.getParSpaceDim + 1) default)
        (by rw [resize_length, hdim])).1
      rw [hdim] at this
      exact this
    · rw [if_neg he]
      rcases hcopy with h | h
      · exact absurd h he
      · exact h
  have hcyc : ∀ n, inBounds (setup costFunction s).1
      (cycles costFunction n (setup costFunction s).1 (setup costFunction s).2).2 :=
    fun n => cycles_inBounds costFunction n _ _ hb2 hlen h0
  refine ⟨h0, hAcopy, fun n => ⟨hcyc n, fun hn => cycles_Acopy costFunction n _ _ (Or.inr hn)⟩,
    ?_⟩
  intro fuel t B h
  obtain ⟨n, hn⟩ := whileLoop_some_cycles costFunction fuel _ _ _ _ h
  have := hcyc n
  rw [hn] at this
  exact this

/-- A concrete instance of `vertex_set_inBounds`: a fresh engine on `sumOfSquares`,
bounds `[-10, 10]`. -/
theorem vertex_set_inBounds_witness :
    inBounds (setup sumOfSquares (ctor 50)).1 (setup sumOfSquares (ctor 50)).2 :=
  (vertex_set_inBounds sumOfSquares (ctor 50) (by decide) (Or.inl rfl)).1

/-! ## The initial simplex under the automatic step size -/

theorem checkBoundaryCondition_of_inBounds (s : Simplex) (V : vertex)
    (h : ∀ (k : Nat) (x : ℚ), k < s.mDimension → V.first[k]? = some x →
      (s.parameter k).getLeftBoundary ≤ x ∧ x ≤ (s.parameter k).getRightBoundary) :
    checkBoundaryCondition s V = V := by
  refine vertex_ext ?_ rfl
  apply List.ext_getElem?
  intro k
  rw [checkBoundaryCondition_getElem?]
  by_cases hk : k < s.mDimension
  · rw [if_pos hk]
    cases hx : V.first[k]? with
    | none => rfl
    | some x =>
      obtain ⟨h1, h2⟩ := h k x hk hx
      rw [Option.map_some', clampCoordinate_of_mem h1 h2]
  · rw [if_neg hk]

theorem automatic_step_inBounds {left start right : ℚ} (h1 : left ≤ start)
    (h2 : start ≤ right) :
    left ≤ start + min (start - left) (right - start) / 2 ∧
      start + min (start - left) (right - start) / 2 ≤ right := by
  have hm : 0 ≤ min (start - left) (right - start) := le_min (by linarith) (by linarith)
  have hr : min (start - left) (right - start) ≤ right - start := min_le_right _ _
  constructor <;> linarith

/-- C19: with the automatic step size and `left_k ≤ start_k ≤ right_k` for every
parameter, every vertex produced by `initializeVertices` lies within bounds
(`left_k ≤ start_k + min(start_k - left_k, right_k - start_k)/2 ≤ right_k`), and
the pre-loop `checkBoundaryCondition` pass changes no coordinate: the vertex set
on entry to the loop is the one `initializeVertices` produced. -/
theorem initializeVertices_inBounds (costFunction : FunctionToBeOptimized) (s : Simplex)
    (hstep : s.stepSize = []) (hfresh : s.Acopy = [])
    (hb : ∀ k, k < costFunction.getParSpaceDim →
      (costFunction.mParameters.getD k default).getLeftBoundary ≤
        (costFunction.mParameters.getD k default).getStartingValue ∧
      (costFunction.mParameters.getD k default).getStartingValue ≤
        (costFunction.mParameters.getD k default).getRightBoundary) :
    (∀ k, k < costFunction.getParSpaceDim →
      (setup costFunction s).1.stepSize[k]? =
        some (min ((costFunction.mParameters.getD k default).getStartingValue -
            (costFunction.mParameters.getD k default).getLeftBoundary)
          ((costFunction.mParameters.getD k default).getRightBoundary -
            (costFunction.mParameters.getD k default).getStartingValue) / 2)) ∧
    inBounds (setup costFunction s).1
      (initializeVertices (setup costFunction s).1
        (resize [] (costFunction.getParSpaceDim + 1) default)) ∧
    (setup costFunction s).2 =
      initializeVertices (setup costFunction s).1
        (resize [] (costFunction.getParSpaceDim + 1) default) := by
  obtain ⟨-, -, -, -, -, hdim, hfun⟩ := setup_fields costFunction s
  have hpar : ∀ k, (setup costFunction s).1.parameter k =
      costFunction.mParameters.getD k default := by
    intro k; unfold parameter; rw [hfun]
  have hss : (setup costFunction s).1.stepSize =
      (List.range costFunction.getParSpaceDim).map (fun k =>
        min ((costFunction.mParameters.getD k default).getStartingValue -
            (costFunction.mParameters.getD k default).getLeftBoundary)
          ((costFunction.mParameters.getD k default).getRightBoundary -
            (costFunction.mParameters.getD k default).getStartingValue) / 2) := by
    rw [setup_fst]
    exact setStepSize_of_empty _ hstep
  have hstepk : ∀ k, k < costFunction.getParSpaceDim →
      (setup costFunction s).1.stepSize[k]? =
        some (min ((costFunction.mParameters.getD k default).getStartingValue -
            (costFunction.mParameters.getD k default).getLeftBoundary)
          ((costFunction.mParameters.getD k default).getRightBoundary -
            (costFunction.mParameters.getD k default).getStartingValue) / 2) := by
    intro k hk
    rw [hss, List.getElem?_map, List.getElem?_range hk]
    rfl
  have hin : inBounds (setup costFunction s).1
      (initializeVertices (setup costFunction s).1
        (resize [] (costFunction.getParSpaceDim + 1) default)) := by
    intro v hv k x hk hx
    rw [hdim] at hk
    rw [hpar k]
    obtain ⟨j, hj⟩ := List.mem_iff_getElem?.mp hv
    rw [initializeVertices_getElem? _ _ (by rw [resize_length, hdim]) j] at hj
    by_cases hj0 : j = 0
    · rw [if_pos hj0] at hj
      rw [← Option.some.inj hj] at hx
      simp only [] at hx
      rw [hdim, List.getElem?_map, List.getElem?_range hk, Option.map_some', hpar k] at hx
      rw [← Option.some.inj hx]
      exact hb k hk
    · rw [if_neg hj0] at hj
      by_cases hjN : j < (setup costFunction s).1.mDimension + 1
      · rw [if_pos hjN] at hj
        cases hu : (resize ([] : verticesVector) (costFunction.getParSpaceDim + 1) default)[j]? with
        | none => rw [hu] at hj; exact absurd hj (by simp)
        | some u =>
          rw [hu, Option.map_some'] at hj
          rw [← Option.some.inj hj] at hx
          simp only [] at hx
          rw [hdim, List.getElem?_map, List.getElem?_range hk, Option.map_some', hpar k] at hx
          rw [← Option.some.inj hx]
          by_cases hkj : k = j - 1
          · rw [if_pos hkj, ← hkj, List.getD_eq_getElem?_getD (setup costFunction s).1.stepSize,
              hstepk k hk, Option.getD_some]
            exact automatic_step_inBounds (hb k hk).1 (hb k hk).2
          · rw [if_neg hkj]
            exact hb k hk
      · rw [if_neg hjN, List.getElem?_eq_none (by rw [resize_length, ← hdim]; omega)] at hj
        exact absurd hj (by simp)
  refine ⟨hstepk, hin, ?_⟩
  rw [setup_snd_eq_map costFunction s (Or.inl hfresh), if_pos hfresh]
  conv_rhs => rw [← List.map_id (initializeVertices (setup costFunction s).1
    (resize [] (costFunction.getParSpaceDim + 1) default))]
  apply List.map_congr_left
  intro v hv
  exact checkBoundaryCondition_of_inBounds _ v (hin v hv)

/-- A concrete instance of `initializeVertices_inBounds`: a fresh engine on
`sumOfSquares` (start `(5, 5)`, bounds `[-10, 10]`). -/
theorem initializeVertices_inBounds_witness :
    (setup sumOfSquares (ctor 50)).2 =
      initializeVertices (setup sumOfSquares (ctor 50)).1
        (resize [] (sumOfSquares.getParSpaceDim + 1) default) :=
  (initializeVertices_inBounds sumOfSquares (ctor 50) rfl rfl (by decide)).2.2

/-! ## Monotone best cost -/

theorem pairwise_head_le (l : verticesVector)
    (hl : l.Pairwise (fun x y => x.second ≤ y.second)) (v : vertex) (hv : v ∈ l) :
    (l.getD 0 default).second ≤ v.second := by
  cases l with
  | nil => exact absurd hv (List.not_mem_nil v)
  | cons a l =>
    rw [List.pairwise_cons] at hl
    rcases List.mem_cons.mp hv with rfl | h
    · exact le_refl _
    · exact hl.1 v h

theorem evaluateAndSort_mem (costFunction : FunctionToBeOptimized) (s : Simplex)
    (A : verticesVector) (hA : A.length = s.mDimension + 1) (v : vertex) :
    v ∈ evaluateAndSort costFunction s A ↔
      ∃ u, u ∈ A ∧ v = { u with second := costFunction.getEvaluation u.first } := by
  rw [evaluateAndSort_eq, (sort_perm _).mem_iff,
    evaluateVertices_eq_map costFunction s A (le_of_eq hA), List.mem_map]
  constructor
  · rintro ⟨u, hu, rfl⟩; exact ⟨u, hu, rfl⟩
  · rintro ⟨u, hu, rfl⟩; exact ⟨u, hu, rfl⟩

/-- C20: the cost of vertex 0 after the Order step of a cycle is at most the cost
of vertex 0 after the Order step of the cycle before it, because the cycle
overwrites index `N` only and leaves the vertices at the indices below `N` as
they were sorted. -/
theorem best_cost_monotone (costFunction : FunctionToBeOptimized) (s t : Simplex)
    (A : verticesVector) (hN : 1 ≤ s.mDimension) (hA : A.length = s.mDimension + 1)
    (ht : t.mDimension = s.mDimension) :
    (∀ i, i < s.mDimension →
      (cycle costFunction s A).2.getD i default =
        (evaluateAndSort costFunction s A).getD i default) ∧
    ((evaluateAndSort costFunction t (cycle costFunction s A).2).getD 0 default).second ≤
      ((evaluateAndSort costFunction s A).getD 0 default).second := by
  have hBlen : (evaluateAndSort costFunction s A).length = s.mDimension + 1 := by
    rw [evaluateAndSort_length, hA]
  have hkeep : ∀ i, i < s.mDimension →
      (cycle costFunction s A).2.getD i default =
        (evaluateAndSort costFunction s A).getD i default :=
    fun i hi => cycle_getD_of_ne costFunction s A hA i (by omega)
  refine ⟨hkeep, ?_⟩
  have hlen2 : (cycle costFunction s A).2.length = t.mDimension + 1 := by
    rw [ht]; exact cycle_length costFunction s A hA
  -- the best vertex of the first cycle carries its own cost
  have hB0mem : (evaluateAndSort costFunction s A).getD 0 default ∈
      evaluateAndSort costFunction s A := by
    rw [List.getD_eq_getElem _ _ (by omega)]
    exact List.getElem_mem _
  obtain ⟨u, -, hu⟩ := (evaluateAndSort_mem costFunction s A hA _).mp hB0mem
  have hcost : ((evaluateAndSort costFunction s A).getD 0 default).second =
      costFunction.getEvaluation ((evaluateAndSort costFunction s A).getD 0 default).first := by
    rw [hu]
  -- it is still a vertex after the cycle, and after the next evaluation and sort
  have hmem : (evaluateAndSort costFunction s A).getD 0 default ∈ (cycle costFunction s A).2 := by
    rw [← hkeep 0 (by omega), List.getD_eq_getElem _ _ (by omega)]
    exact List.getElem_mem _
  have hmem2 : (evaluateAndSort costFunction s A).getD 0 default ∈
      evaluateAndSort costFunction t (cycle costFunction s A).2 := by
    rw [evaluateAndSort_mem costFunction t _ hlen2]
    refine ⟨_, hmem, ?_⟩
    exact vertex_ext rfl hcost
  exact pairwise_head_le _ (by rw [evaluateAndSort_eq]; exact sort_pairwise _) _ hmem2

/-- A concrete instance of `best_cost_monotone`: two consecutive cycles on
`f(x) = (x + 7)^2` from the vertices `0` and `5`. -/
theorem best_cost_monotone_witness :
    ((evaluateAndSort shiftedSquare (freshState shiftedSquare 2)
        (cycle shiftedSquare (freshState shiftedSquare 2)
          [⟨[0], 0⟩, ⟨[5], 0⟩]).2).getD 0 default).second ≤
      ((evaluateAndSort shiftedSquare (freshState shiftedSquare 2)
        [⟨[0], 0⟩, ⟨[5], 0⟩]).getD 0 default).second :=
  (best_cost_monotone shiftedSquare (freshState shiftedSquare 2) (freshState shiftedSquare 2)
    [⟨[0], 0⟩, ⟨[5], 0⟩] (by decide) (by rfl) rfl).2

/-! ## A run that starts from a cached vertex set -/

/-- C14, as stated, fails: with the cached vertex set `(20,0)`, `(0,0)`, `(0,5)` and
the bounds `[-10, 10]` of `sumOfSquares`, the vertex set on entry to the loop is
not the cached one: the pre-loop clamp has moved `(20,0)` to `(10,0)`. -/
theorem restored_set_is_clamped :
    restoredEngine.Acopy ≠ [] ∧
    restoredEngine.Acopy.length = sumOfSquares.getParSpaceDim + 1 ∧
    (setup sumOfSquares restoredEngine).2 ≠ restoredEngine.Acopy ∧
    (setup sumOfSquares restoredEngine).2 =
      [⟨[10, 0], 400⟩, ⟨[0, 0], 0⟩, ⟨[0, 5], 25⟩] := by
  with_unfolding_all decide

/-- C14 (amended): when a cached vertex set of `N + 1` vertices is present at the
start of `algorithm`, initialisation is skipped; on entry to the loop the
iteration counter is the cached counter and the working vertex set is the cached
set with every vertex passed through `checkBoundaryCondition` (coordinate `k`
clamped into `[left_k, right_k]`, costs untouched); it is the cached set verbatim
whenever every cached coordinate lies within the bounds, and, when
`left_k ≤ right_k` in every dimension, only then. -/
theorem setup_restored (costFunction : FunctionToBeOptimized) (s : Simplex)
    (hne : s.Acopy ≠ []) (hlen : s.Acopy.length = costFunction.getParSpaceDim + 1) :
    (setup costFunction s).1.currentIteration = s.currentIteration ∧
    (setup costFunction s).1.Acopy = s.Acopy ∧
    (setup costFunction s).2 =
      s.Acopy.map (checkBoundaryCondition (setup costFunction s).1) ∧
    (∀ (i k : Nat) (v : vertex), s.Acopy[i]? = some v → k < costFunction.getParSpaceDim →
      ((setup costFunction s).2.getD i default).second = v.second ∧
      ((setup costFunction s).2.getD i default).first[k]? =
        v.first[k]?.map (clampCoordinate
          (costFunction.mParameters.getD k default).getLeftBoundary
          (costFunction.mParameters.getD k default).getRightBoundary)) ∧
    (inBounds (setup costFunction s).1 s.Acopy → (setup costFunction s).2 = s.Acopy) ∧
    ((∀ k, k < costFunction.getParSpaceDim →
        (costFunction.mParameters.getD k default).getLeftBoundary ≤
          (costFunction.mParameters.getD k default).getRightBoundary) →
      ((setup costFunction s).2 = s.Acopy ↔ inBounds (setup costFunction s).1 s.Acopy)) := by
  obtain ⟨-, hcur, -, -, hcopy, hdim, hfun⟩ := setup_fields costFunction s
  have hmap : (setup costFunction s).2 =
      s.Acopy.map (checkBoundaryCondition (setup costFunction s).1) := by
    rw [setup_snd_eq_map costFunction s (Or.inr hlen), if_neg hne]
  have hverb : inBounds (setup costFunction s).1 s.Acopy →
      (setup costFunction s).2 = s.Acopy := by
    intro hin
    rw [hmap]
    conv_rhs => rw [← List.map_id s.Acopy]
    apply List.map_congr_left
    intro v hv
    exact checkBoundaryCondition_of_inBounds _ v (hin v hv)
  refine ⟨hcur, hcopy, hmap, ?_, hverb, ?_⟩
  · intro i k v hv hk
    have hget : (setup costFunction s).2.getD i default =
        checkBoundaryCondition (setup costFunction s).1 v := by
      rw [hmap, List.getD_eq_getElem?_getD, List.getElem?_map, hv]
      rfl
    rw [hget]
    refine ⟨rfl, ?_⟩
    rw [checkBoundaryCondition_getElem?, hdim, if_pos hk]
    unfold parameter
    rw [hfun]
  · intro hb
    refine ⟨?_, hverb⟩
    intro heq v hv k x hk hx
    have hb2 : ∀ k, k < (setup costFunction s).1.mDimension →
        ((setup costFunction s).1.parameter k).getLeftBoundary ≤
          ((setup costFunction s).1.parameter k).getRightBoundary := by
      intro k hk
      unfold parameter
      rw [hfun]
      exact hb k (by rw [← hdim]; exact hk)
    obtain ⟨i, hi⟩ := List.mem_iff_getElem?.mp hv
    have hfix : checkBoundaryCondition (setup costFunction s).1 v = v := by
      have h1 : (s.Acopy.map (checkBoundaryCondition (setup costFunction s).1))[i]? =
          s.Acopy[i]? := by rw [← hmap, heq]
      rw [List.getElem?_map, hi] at h1
      exact Option.some.inj h1
    rw [← hfix] at hx
    exact checkBoundaryCondition_inBounds _ v hb2 k x hk hx

/-- A concrete instance of `setup_restored`: the cached vertex set of
`restoredEngine` under the bounds of `sumOfSquares`. -/
theorem setup_restored_witness :
    (setup sumOfSquares restoredEngine).1.currentIteration = restoredEngine.currentIteration ∧
    (setup sumOfSquares restoredEngine).2 =
      restoredEngine.Acopy.map (checkBoundaryCondition (setup sumOfSquares restoredEngine).1) ∧
    ((setup sumOfSquares restoredEngine).2 = restoredEngine.Acopy ↔
      inBounds (setup sumOfSquares restoredEngine).1 restoredEngine.Acopy) :=
  ⟨(setup_restored sumOfSquares restoredEngine (by decide) (by rfl)).1,
   (setup_restored sumOfSquares restoredEngine (by decide) (by rfl)).2.2.1,
   (setup_restored sumOfSquares restoredEngine (by decide) (by rfl)).2.2.2.2.2 (by decide)⟩

/-! ## Configurations outside the preconditions -/

/-- C12, as stated, fails: for `f(x) = (x + 7)^2` with the starting value `20`
outside the bounds `[-10, 10]` the run is not refused: vertex 0 enters the loop
clamped to `10`, one iteration is performed and a `Result` is returned. -/
theorem start_out_of_bounds_accepted :
    (∃ p, p ∈ startOutOfBounds.mParameters ∧ p.getRightBoundary < p.getStartingValue) ∧
    ((setup startOutOfBounds (ctor 1)).2.getD 0 default).first = [10] ∧
    ∃ r t, algorithm 2 startOutOfBounds (ctor 1) = some (r, t) ∧ t.currentIteration = 1 := by
  have h : (algorithm 2 startOutOfBounds (ctor 1)).map (fun p => p.2.currentIteration) =
      some 1 := by
    with_unfolding_all decide
  refine ⟨⟨⟨"x", 20, -10, 10⟩, by simp [startOutOfBounds], by norm_num⟩,
    by with_unfolding_all decide, ?_⟩
  cases hrun : algorithm 2 startOutOfBounds (ctor 1) with
  | none => rw [hrun] at h; exact absurd h (by simp)
  | some p =>
    rw [hrun, Option.map_some', Option.some.injEq] at h
    exact ⟨p.1, p.2, rfl, h⟩

theorem clampCoordinate_below {left right x : ℚ} (h : left ≤ right) (hx : x < left) :
    clampCoordinate left right x = left := by
  unfold clampCoordinate
  simp only []
  rw [if_pos hx, if_neg (not_lt.mpr h)]

theorem clampCoordinate_above {left right x : ℚ} (h : left ≤ right) (hx : right < x) :
    clampCoordinate left right x = right := by
  unfold clampCoordinate
  simp only []
  rw [if_neg (not_lt.mpr (le_of_lt (lt_of_le_of_lt h hx))), if_pos hx]

/-- C12 (amended): `algorithm` does not refuse a configuration whose starting
value lies outside `[left, right]`.  For every cost function with one parameter
per dimension in which some starting value lies outside its bounds (so the
dimension is at least 1), a fresh engine initialises, clamps the initial
vertices silently (each coordinate of vertex 0 on entry to the loop is the
clamped starting value: the left bound for a start below it, the right bound for
a start above it, when `left ≤ right`), runs the loop until the stopping check
fails and returns a `Result`. -/
theorem algorithm_accepts_any_start (costFunction : FunctionToBeOptimized) (stop : Int)
    (fuel : Nat)
    (hpar : costFunction.mParameters.length = costFunction.getParSpaceDim)
    (hout : ∃ (k : Nat) (p : Parameter), costFunction.mParameters[k]? = some p ∧
      (p.getStartingValue < p.getLeftBoundary ∨ p.getRightBoundary < p.getStartingValue))
    (hfuel : stop.toNat < fuel) :
    1 ≤ costFunction.getParSpaceDim ∧
    (∀ (k : Nat) (p : Parameter), costFunction.mParameters[k]? = some p →
      ((setup costFunction (ctor stop)).2.getD 0 default).first[k]? =
        some (clampCoordinate p.getLeftBoundary p.getRightBoundary p.getStartingValue) ∧
      (p.getLeftBoundary ≤ p.getRightBoundary → p.getStartingValue < p.getLeftBoundary →
        ((setup costFunction (ctor stop)).2.getD 0 default).first[k]? =
          some p.getLeftBoundary) ∧
      (p.getLeftBoundary ≤ p.getRightBoundary → p.getRightBoundary < p.getStartingValue →
        ((setup costFunction (ctor stop)).2.getD 0 default).first[k]? =
          some p.getRightBoundary)) ∧
    ∃ r t, algorithm fuel costFunction (ctor stop) = some (r, t) ∧
      t.currentIteration = max 0 stop := by
  obtain ⟨hs1, hs2, hs3, -⟩ := setup_fields costFunction (ctor stop)
  obtain ⟨-, -, -, -, hfun, -⟩ := freshState_fields costFunction stop
  have hN : 1 ≤ costFunction.getParSpaceDim := by
    obtain ⟨k, p, hp, -⟩ := hout
    have := (List.getElem?_eq_some_iff.mp hp).1
    omega
  have hv0 : ∀ (k : Nat) (p : Parameter), costFunction.mParameters[k]? = some p →
      ((setup costFunction (ctor stop)).2.getD 0 default).first[k]? =
        some (clampCoordinate p.getLeftBoundary p.getRightBoundary p.getStartingValue) := by
    intro k p hp
    have hk : k < costFunction.getParSpaceDim := by
      have := (List.getElem?_eq_some_iff.mp hp).1
      omega
    rw [setup_ctor_vertex0_getElem? costFunction stop k hk]
    have hpk : (freshState costFunction stop).parameter k = p := by
      unfold parameter
      rw [hfun, List.getD_eq_getElem?_getD, hp]
      rfl
    rw [hpk]
  refine ⟨hN, ?_, ?_⟩
  · intro k p hp
    refine ⟨hv0 k p hp, ?_, ?_⟩
    · intro hle hlt
      rw [hv0 k p hp, clampCoordinate_below hle hlt]
    · intro hle hlt
      rw [hv0 k p hp, clampCoordinate_above hle hlt]
  · have hloop := whileLoop_eq_cycles costFunction
      ((setup costFunction (ctor stop)).1.stoppingIteration -
        (setup costFunction (ctor stop)).1.currentIteration).toNat fuel
      (setup costFunction (ctor stop)).1 (setup costFunction (ctor stop)).2 rfl
      (by rw [hs1, hs2]; show (stop - 0).toNat < fuel; rw [Int.sub_zero]; exact hfuel)
      (by unfold getAdditionalInformation; rw [hs3]; rfl)
    refine ⟨_, _, algorithm_eq fuel costFunction (ctor stop) _ _ hloop, ?_⟩
    rw [(cycles_fields costFunction _ _ _).2.1, hs1, hs2]
    show (0 : Int) + ((stop - 0).toNat : Int) = max 0 stop
    rcases le_total 0 stop with h | h
    · rw [max_eq_right h]; omega
    · rw [max_eq_left h]; omega

/-- A concrete instance of `algorithm_accepts_any_start`: the starting value `20`
outside `[-10, 10]`, budget 1, fuel 2. -/
theorem algorithm_accepts_any_start_witness :
    startOutOfBounds.mParameters.length = startOutOfBounds.getParSpaceDim ∧
    ((setup startOutOfBounds (ctor 1)).2.getD 0 default).first[0]? = some 10 ∧
    ∃ r t, algorithm 2 startOutOfBounds (ctor 1) = some (r, t) ∧
      t.currentIteration = max 0 1 :=
  ⟨rfl,
   ((algorithm_accepts_any_start startOutOfBounds 1 2 rfl
      ⟨0, ⟨"x", 20, -10, 10⟩, rfl, Or.inr (by with_unfolding_all decide)⟩
      (by decide)).2.1 0 ⟨"x", 20, -10, 10⟩ rfl).2.2
      (by with_unfolding_all decide) (by with_unfolding_all decide),
   (algorithm_accepts_any_start startOutOfBounds 1 2 rfl
      ⟨0, ⟨"x", 20, -10, 10⟩, rfl, Or.inr (by with_unfolding_all decide)⟩
      (by decide)).2.2⟩

/-! ## The end-to-end run on `x^2 + y^2` -/

set_option maxRecDepth 4000 in
theorem sumOfSquares_run_point :
    (match algorithm 51 sumOfSquares (ctor 50) with
      | some p =>
        match p.1.optimizationParameter "x", p.1.optimizationParameter "y" with
        | some x, some y =>
          decide (p.1.result < 1 / 1000) && decide (p.1.result ≤ x ^ 2 + y ^ 2) &&
            decide (x ^ 2 + y ^ 2 ≤ p.1.result) && decide (-1 / 10 < x) && decide (x < 1 / 10) &&
            decide (-1 / 10 < y) && decide (y < 1 / 10)
        | _, _ => false
      | none => false) = true := by
  with_unfolding_all decide

/-- C13: minimising `f(x, y) = x^2 + y^2` from the start `(5, 5)` with bounds
`[-10, 10]`, budget 50, automatic step size and the default coefficients returns
(for any fuel above 50) a `Result` with values `x`, `y` for the two parameters
whose cost is the objective at that point, `x^2 + y^2`, and, in exact rational
arithmetic, below `1/1000`; the point lies within `1/10` of `(0, 0)` in each
coordinate and the run has performed exactly 50 iterations. -/
theorem sumOfSquares_converges (fuel : Nat) (hfuel : 50 < fuel) :
    ∃ (r : Result) (t : Simplex) (x y : ℚ),
      algorithm fuel sumOfSquares (ctor 50) = some (r, t) ∧
      r.optimizationParameter "x" = some x ∧ r.optimizationParameter "y" = some y ∧
      r.result = x ^ 2 + y ^ 2 ∧ r.result = sumOfSquares.evaluate [x, y] ∧
      r.result < 1 / 1000 ∧
      -1 / 10 < x ∧ x < 1 / 10 ∧ -1 / 10 < y ∧ y < 1 / 10 ∧
      t.currentIteration = 50 := by
  obtain ⟨hs1, hs2, hs3, -⟩ := setup_fields sumOfSquares (ctor 50)
  have hn : ((setup sumOfSquares (ctor 50)).1.stoppingIteration -
      (setup sumOfSquares (ctor 50)).1.currentIteration).toNat = 50 := by
    rw [hs1, hs2]; rfl
  have hflag : (setup sumOfSquares (ctor 50)).1.getAdditionalInformation "checkboundary" =
      "" := by
    unfold getAdditionalInformation; rw [hs3]; rfl
  have hloop : ∀ m, 50 < m →
      whileLoop sumOfSquares m (setup sumOfSquares (ctor 50)).1
        (setup sumOfSquares (ctor 50)).2 =
      some (cycles sumOfSquares 50 (setup sumOfSquares (ctor 50)).1
        (setup sumOfSquares (ctor 50)).2) :=
    fun m hm => whileLoop_eq_cycles sumOfSquares 50 m _ _ hn hm hflag
  have hcount : (cycles sumOfSquares 50 (setup sumOfSquares (ctor 50)).1
      (setup sumOfSquares (ctor 50)).2).1.currentIteration = 50 := by
    rw [(cycles_fields sumOfSquares 50 _ _).2.1, hs2]
    rfl
  generalize cycles sumOfSquares 50 (setup sumOfSquares (ctor 50)).1
    (setup sumOfSquares (ctor 50)).2 = X at hloop hcount
  have h51 := algorithm_eq 51 sumOfSquares (ctor 50) X.1 X.2 (hloop 51 (by decide))
  have hfuel2 := algorithm_eq fuel sumOfSquares (ctor 50) X.1 X.2 (hloop fuel hfuel)
  have hrun := sumOfSquares_run_point
  rw [h51] at hrun
  generalize pushResult X.1 default (X.2.getD 0 default) = R at hfuel2 hrun
  dsimp only at hrun
  split at hrun
  · rename_i x y hx hy
    simp only [Bool.and_eq_true, decide_eq_true_eq] at hrun
    obtain ⟨⟨⟨⟨⟨⟨h1, h2⟩, h3⟩, h4⟩, h5⟩, h6⟩, h7⟩ := hrun
    have heq : R.result = x ^ 2 + y ^ 2 := le_antisymm h2 h3
    refine ⟨R, X.1, x, y, hfuel2, hx, hy, heq, ?_, h1, h4, h5, h6, h7, hcount⟩
    rw [heq]
    rfl
  · exact absurd hrun (by decide)

/-- A concrete instance of `sumOfSquares_converges`: fuel 51. -/
theorem sumOfSquares_converges_witness :
    ∃ (r : Result) (t : Simplex) (x y : ℚ),
      algorithm 51 sumOfSquares (ctor 50) = some (r, t) ∧
      r.optimizationParameter "x" = some x ∧ r.optimizationParameter "y" = some y ∧
      r.result = x ^ 2 + y ^ 2 ∧ r.result = sumOfSquares.evaluate [x, y] ∧
      r.result < 1 / 1000 ∧
      -1 / 10 < x ∧ x < 1 / 10 ∧ -1 / 10 < y ∧ y < 1 / 10 ∧
      t.currentIteration = 50 :=
  sumOfSquares_converges 51 (by decide)

/-- C16, as stated, fails for the cached copy: when `algorithm` starts from the
cached vertex set `(20,0)`, `(0,0)`, `(0,5)` under the bounds `[-10, 10]`, the
working vertex set is within bounds after the pre-loop clamp, but `Acopy` still
holds the coordinate `20`: only the working copy `A` is clamped, and `Acopy` is
next written at the end of the first cycle. -/
theorem cached_copy_not_clamped :
    (∀ k, k < sumOfSquares.getParSpaceDim →
      (sumOfSquares.mParameters.getD k default).getLeftBoundary ≤
        (sumOfSquares.mParameters.getD k default).getRightBoundary) ∧
    inBounds (setup sumOfSquares restoredEngine).1 (setup sumOfSquares restoredEngine).2 ∧
    ¬ inBounds (setup sumOfSquares restoredEngine).1
      (setup sumOfSquares restoredEngine).1.Acopy := by
  have hb : ∀ k, k < sumOfSquares.getParSpaceDim →
      (sumOfSquares.mParameters.getD k default).getLeftBoundary ≤
        (sumOfSquares.mParameters.getD k default).getRightBoundary := by decide
  refine ⟨hb, ?_, ?_⟩
  · rw [setup_snd_eq_map sumOfSquares restoredEngine (Or.inr rfl)]
    intro v hv
    obtain ⟨u, -, rfl⟩ := List.mem_map.mp hv
    refine checkBoundaryCondition_inBounds _ u ?_
    intro k hk
    exact hb k hk
  · intro h
    have h1 := (h ⟨[20, 0], 400⟩ (by with_unfolding_all decide) 0 20 (by decide) rfl).2
    have h2 : ¬ (20 : ℚ) ≤
        ((setup sumOfSquares restoredEngine).1.parameter 0).getRightBoundary := by
      with_unfolding_all decide
    exact h2 h1

end Simplex

end MinA
